import Mathlib

/-!
Verification development for a Scheme-like tree-walking interpreter.

The definitions below are a shallow embedding of the interpreter's final
(environment-pointer based) implementation: the numeric tower
(`RationalNum` construction and the `H_Plus`/`H_Minus`/`H_Mult`/`H_Div`
helpers), the chained comparison operators, integer exponentiation
(`Expt::evalRator`), the environment operations (`find`, `add_bind`,
`modify`, `is_valid_var`), the expression evaluator (`eval` dispatch over
expression variants including `SList` head dispatch, closures, `define`,
`let`/`letrec`, `set!`, `and`/`or`), and the quoting path (`q_parse`)
with the canonical `show` rendering.

C++ `int` values are modelled as unbounded `Int`; the one place the source
detects overflow (`expt`) performs its arithmetic in `long long`, which is
shown never to overflow on the guarded path, so the `Int` model is faithful
there.  Runtime errors (`throw RuntimeError(msg)`) are modelled as
`Except`-style error results carrying the exact message string.
-/

/-- Euclidean gcd loop body from `expr.cpp` (`static int gcd(int a, int b)`),
written with a structural fuel so the kernel can evaluate it; the wrapper
below supplies fuel that always suffices (each step strictly shrinks `b`). -/
def cppGcdFuel : Nat → Nat → Nat → Nat
  | 0, a, _ => a
  | fuel + 1, a, b => if b = 0 then a else cppGcdFuel fuel b (a % b)

/-- Euclidean gcd loop from `expr.cpp`; the interpreter only calls it on
absolute values, hence `Nat`. -/
def cppGcd (a b : Nat) : Nat := cppGcdFuel b a b

theorem cppGcdFuel_eq_gcd (fuel a b : Nat) (hb : b ≤ fuel) :
    cppGcdFuel fuel a b = Nat.gcd a b := by
  induction fuel generalizing a b with
  | zero =>
    interval_cases b
    rw [cppGcdFuel, Nat.gcd_zero_right]
  | succ fuel ih =>
    rw [cppGcdFuel]
    by_cases h : b = 0
    · simp [h]
    · rw [if_neg h, ih b (a % b) (by
        have := Nat.mod_lt a (Nat.pos_of_ne_zero h)
        omega)]
      rw [Nat.gcd_comm a b, Nat.gcd_rec b a]
      exact (Nat.gcd_comm _ _)

theorem cppGcd_eq_gcd (a b : Nat) : cppGcd a b = Nat.gcd a b :=
  cppGcdFuel_eq_gcd b a b le_rfl

/-- Normalisation performed by the `RationalNum(int num, int den)`
constructor: divide both components by `gcd(|num|, |den|)` (C `/` is exact
here, modelled with `Int.tdiv`), then move a negative sign from the
denominator to the numerator. -/
def ratNormalize (num den : Int) : Int × Int :=
  let g : Int := (cppGcd num.natAbs den.natAbs : Nat)
  let n := num.tdiv g
  let d := den.tdiv g
  if d < 0 then (-n, -d) else (n, d)

theorem ratNormalize_spec (num den : Int) (hd : den ≠ 0) :
    0 < (ratNormalize num den).2 ∧
    Nat.gcd (ratNormalize num den).1.natAbs (ratNormalize num den).2.natAbs = 1 ∧
    (ratNormalize num den).1 * den = num * (ratNormalize num den).2 := by
  have hg : (cppGcd num.natAbs den.natAbs : Nat) = Nat.gcd num.natAbs den.natAbs :=
    cppGcd_eq_gcd _ _
  have hgpos : 0 < Nat.gcd num.natAbs den.natAbs :=
    Nat.gcd_pos_of_pos_right _ (Int.natAbs_pos.mpr hd)
  set G : Nat := Nat.gcd num.natAbs den.natAbs with hG
  have hdvd_n : (G : Int) ∣ num := Int.gcd_dvd_left
  have hdvd_d : (G : Int) ∣ den := Int.gcd_dvd_right
  have hn_eq : (G : Int) * (num.tdiv G) = num := Int.mul_tdiv_cancel' hdvd_n
  have hd_eq : (G : Int) * (den.tdiv G) = den := Int.mul_tdiv_cancel' hdvd_d
  have hd'ne : den.tdiv (G : Int) ≠ 0 := by
    intro h0
    apply hd
    rw [← hd_eq, h0, mul_zero]
  -- coprimality of the reduced pair
  have habs_n : (num.tdiv (G : Int)).natAbs = num.natAbs / G := by
    have h1 : num.natAbs = G * (num.tdiv (G : Int)).natAbs := by
      calc num.natAbs = ((G : Int) * (num.tdiv G)).natAbs := by rw [hn_eq]
        _ = G * (num.tdiv (G : Int)).natAbs := by
            rw [Int.natAbs_mul, Int.natAbs_ofNat]
    rw [h1, Nat.mul_div_cancel_left _ hgpos]
  have habs_d : (den.tdiv (G : Int)).natAbs = den.natAbs / G := by
    have h1 : den.natAbs = G * (den.tdiv (G : Int)).natAbs := by
      calc den.natAbs = ((G : Int) * (den.tdiv G)).natAbs := by rw [hd_eq]
        _ = G * (den.tdiv (G : Int)).natAbs := by
            rw [Int.natAbs_mul, Int.natAbs_ofNat]
    rw [h1, Nat.mul_div_cancel_left _ hgpos]
  have hcop : Nat.gcd (num.tdiv (G : Int)).natAbs (den.tdiv (G : Int)).natAbs = 1 := by
    rw [habs_n, habs_d]
    exact Nat.coprime_div_gcd_div_gcd hgpos
  have hprod : (num.tdiv (G : Int)) * den = num * (den.tdiv (G : Int)) := by
    calc (num.tdiv (G : Int)) * den
        = (num.tdiv (G : Int)) * ((G : Int) * (den.tdiv G)) := by rw [hd_eq]
      _ = ((G : Int) * (num.tdiv G)) * (den.tdiv (G : Int)) := by ring
      _ = num * (den.tdiv (G : Int)) := by rw [hn_eq]
  unfold ratNormalize
  simp only [hg, ← hG]
  by_cases hneg : den.tdiv (G : Nat) < 0
  · rw [if_pos hneg]
    refine ⟨by omega, ?_, ?_⟩
    · simpa [Int.natAbs_neg] using hcop
    · simp only [neg_mul, hprod, mul_neg]
  · rw [if_neg hneg]
    refine ⟨?_, hcop, hprod⟩
    omega

/-- Tags of the primitive operators covered by this development
(a sub-range of the source's `ExprType` enumeration). -/
inductive PrimTag where
  | plusT | minusT | mulT | divT | exptT
  | ltT | leT | eqT | geT | gtT
  | andT | orT
deriving DecidableEq, Repr

/-- Tags of the special forms covered by this development. -/
inductive SfTag where
  | beginT | ifT | lambdaT | defineT | letT | letrecT | setT
deriving DecidableEq, Repr

/-- Shallow embedding of the interpreter's unified expression/value tree
(`struct ExprBase` hierarchy, final snapshot).  Expressions and runtime
values share this one type, exactly as in the source, where `eval` returns
an `Expr`.  A closure (`Procedure`) stores its captured environment as a
frame index into the store.  `Pair` components are `Option` because the
source stores possibly-null `Expr` handles. -/
inductive SExpr where
  | fixnum (n : Int)
  | rational (num den : Int)
  | strE (s : String)
  | boolE (b : Bool)
  | voidE
  | nullE
  | pairE (car cdr : Option SExpr)
  | procV (params : List String) (body : SExpr) (envId : Nat)
  | primV (t : PrimTag)
  | sfV (t : SfTag)
  | var (x : String)
  | slist (terms : List SExpr)
  | beginE (es : List SExpr)
  | ifE (cond conseq alter : SExpr)
  | andE (rands : List SExpr)
  | orE (rands : List SExpr)
  | lambdaE (x : List String) (e : SExpr)
  | defineE (v : String) (e : SExpr)
  | defineF (v : String) (x : List String) (es : List SExpr)
  | letE (bind : List (String × SExpr)) (body : List SExpr)
  | letrecE (bind : List (String × SExpr)) (body : List SExpr)
  | setE (v : String) (e : SExpr)
  | plusVar (rands : List SExpr)
  | minusVar (rands : List SExpr)
  | multVar (rands : List SExpr)
  | divVar (rands : List SExpr)
  | exptB (r1 r2 : SExpr)
  | lessVar (rands : List SExpr)
  | lessEqVar (rands : List SExpr)
  | equalVar (rands : List SExpr)
  | greaterEqVar (rands : List SExpr)
  | greaterVar (rands : List SExpr)

/-- Evaluation results: a runtime error (`throw RuntimeError(msg)` in the
source, carrying the exact message) or fuel exhaustion of the model. -/
inductive EvalErr where
  | fuel
  | rte (msg : String)
deriving DecidableEq

/-- `RationalNumE(n, d)` value construction followed by the source's
"collapse to `Fixnum` when the reduced denominator is 1" convention used
by `H_Plus`/`H_Minus`/`H_Mult`/`H_Div`. -/
def mkRatValue (n d : Int) : SExpr :=
  let p := ratNormalize n d
  if p.2 = 1 then .fixnum p.1 else .rational p.1 p.2

/-- `toRational` (main.cpp): view a `Fixnum` as numerator/denominator 1,
a `RationalNum` as its stored pair, anything else is not a number. -/
def toRat : SExpr → Option (Int × Int)
  | .fixnum n => some (n, 1)
  | .rational n d => some (n, d)
  | _ => none

/-- Numerator as read back by `toRational` (0 for non-numbers). -/
def valNum : SExpr → Int
  | .fixnum n => n
  | .rational n _ => n
  | _ => 0

/-- Denominator as read back by `toRational` (0 for non-numbers). -/
def valDen : SExpr → Int
  | .fixnum _ => 1
  | .rational _ d => d
  | _ => 0

/-- A value is numeric with strictly positive stored denominator
(every number the tower produces satisfies this). -/
def PosDen : SExpr → Prop
  | .fixnum _ => True
  | .rational _ d => 0 < d
  | _ => False

/-- Canonical numeric value: an integer, or a reduced rational whose
denominator is at least 2 (so it cannot silently denote an integer). -/
def CanonicalNum : SExpr → Prop
  | .fixnum _ => True
  | .rational n d => 1 < d ∧ Nat.gcd n.natAbs d.natAbs = 1
  | _ => False

/-- `H_Plus` (main.cpp, final snapshot): cross-multiply, re-normalise,
collapse to an integer when the reduced denominator is 1.  A null operand
would be dereferenced by the source (`isNum(rand1)`); modelled as the
type error the adjacent non-numeric path raises. -/
def hPlus : Option SExpr → Option SExpr → Except EvalErr SExpr
  | some v1, some v2 =>
    match toRat v1, toRat v2 with
    | some (n1, d1), some (n2, d2) =>
      .ok (mkRatValue (n1 * d2 + d1 * n2) (d1 * d2))
    | _, _ => .error (.rte "Wrong typename")
  | _, _ => .error (.rte "Wrong typename")

/-- `H_Minus` (main.cpp, final snapshot). -/
def hMinus : Option SExpr → Option SExpr → Except EvalErr SExpr
  | some v1, some v2 =>
    match toRat v1, toRat v2 with
    | some (n1, d1), some (n2, d2) =>
      .ok (mkRatValue (n1 * d2 - d1 * n2) (d1 * d2))
    | _, _ => .error (.rte "Wrong typename")
  | _, _ => .error (.rte "Wrong typename")

/-- `H_Mult` (main.cpp, final snapshot). -/
def hMult : Option SExpr → Option SExpr → Except EvalErr SExpr
  | some v1, some v2 =>
    match toRat v1, toRat v2 with
    | some (n1, d1), some (n2, d2) =>
      .ok (mkRatValue (n1 * n2) (d1 * d2))
    | _, _ => .error (.rte "Wrong typename")
  | _, _ => .error (.rte "Wrong typename")

/-- `H_Div` (main.cpp, final snapshot): division by a zero-valued operand
(numerator 0) raises "Division by zero". -/
def hDiv : Option SExpr → Option SExpr → Except EvalErr SExpr
  | some v1, some v2 =>
    match toRat v1, toRat v2 with
    | some (n1, d1), some (n2, d2) =>
      if n2 = 0 then .error (.rte "Division by zero")
      else .ok (mkRatValue (n1 * d2) (d1 * n2))
    | _, _ => .error (.rte "Wrong typename")
  | _, _ => .error (.rte "Wrong typename")

/-- Whether a value is an integer (`E_FIXNUM`) node. -/
def isFixE : SExpr → Prop
  | .fixnum _ => True
  | _ => False

theorem mkRatValue_spec (n d : Int) (hd : d ≠ 0) :
    CanonicalNum (mkRatValue n d) ∧
    PosDen (mkRatValue n d) ∧
    (isFixE (mkRatValue n d) ↔ (ratNormalize n d).2 = 1) ∧
    valNum (mkRatValue n d) * d = n * valDen (mkRatValue n d) := by
  obtain ⟨hpos, hcop, hval⟩ := ratNormalize_spec n d hd
  simp only [mkRatValue]
  by_cases h1 : (ratNormalize n d).2 = 1
  · rw [if_pos h1]
    refine ⟨trivial, trivial, ⟨fun _ => h1, fun _ => trivial⟩, ?_⟩
    simp only [valNum, valDen, mul_one]
    rw [hval, h1, mul_one]
  · rw [if_neg h1]
    exact ⟨⟨by omega, hcop⟩, hpos,
      ⟨fun hf => hf.elim, fun heq => absurd heq h1⟩,
      by simpa [valNum, valDen] using hval⟩

/-- `compareNumericExprs` (main.cpp): three-way comparison returning
-1/0/1, by direct integer comparison for two `Fixnum`s and by
cross-multiplication when a `RationalNum` is involved. -/
def compareNE : Option SExpr → Option SExpr → Except EvalErr Int
  | some (.fixnum n1), some (.fixnum n2) =>
    .ok (if n1 < n2 then -1 else if n1 > n2 then 1 else 0)
  | some (.rational n1 d1), some (.fixnum n2) =>
    .ok (if n1 < n2 * d1 then -1 else if n1 > n2 * d1 then 1 else 0)
  | some (.fixnum n1), some (.rational n2 d2) =>
    .ok (if n1 * d2 < n2 then -1 else if n1 * d2 > n2 then 1 else 0)
  | some (.rational n1 d1), some (.rational n2 d2) =>
    .ok (if n1 * d2 < n2 * d1 then -1 else if n1 * d2 > n2 * d1 then 1 else 0)
  | _, _ => .error (.rte "Wrong typename in numeric comparison")

/-- `H_Less` (main.cpp). -/
def hLess (v1 v2 : Option SExpr) : Except EvalErr Bool :=
  (compareNE v1 v2).map (fun r => r = -1)

/-- `H_LessEq` (main.cpp). -/
def hLessEq (v1 v2 : Option SExpr) : Except EvalErr Bool :=
  (compareNE v1 v2).map (fun r => r = -1 || r = 0)

/-- `H_Equal` (main.cpp). -/
def hEqual (v1 v2 : Option SExpr) : Except EvalErr Bool :=
  (compareNE v1 v2).map (fun r => r = 0)

/-- `H_GreaterEq` (main.cpp). -/
def hGreaterEq (v1 v2 : Option SExpr) : Except EvalErr Bool :=
  (compareNE v1 v2).map (fun r => r = 0 || r = 1)

/-- `H_Greater` (main.cpp). -/
def hGreater (v1 v2 : Option SExpr) : Except EvalErr Bool :=
  (compareNE v1 v2).map (fun r => r = 1)

/-- Adjacent-pair loop of `VarFactory` (main.cpp, final snapshot): compare
each operand with its successor, returning `false` at the first failing
pair without examining the rest. -/
def chainCmp (cmp : Option SExpr → Option SExpr → Except EvalErr Bool) :
    Option SExpr → List (Option SExpr) → Except EvalErr Bool
  | _, [] => .ok true
  | prev, x :: xs => do
    let b ← cmp prev x
    if b then chainCmp cmp x xs else .ok false

/-- `VarFactory` (main.cpp, final snapshot): lists of length at most 1
are vacuously `#t`; otherwise check every adjacent pair. -/
def hCmpVar (cmp : Option SExpr → Option SExpr → Except EvalErr Bool)
    (args : List (Option SExpr)) : Except EvalErr (Option SExpr) :=
  match args with
  | [] => .ok (some (.boolE true))
  | [_] => .ok (some (.boolE true))
  | x :: xs => (chainCmp cmp x xs).map (fun b => some (.boolE b))

/-- Platform `INT_MAX` for the 32-bit `int` of the source. -/
def intMax : Int := 2147483647

/-- Platform `INT_MIN` for the 32-bit `int` of the source. -/
def intMin : Int := -2147483648

/-- Whether a (mathematical) integer fits the platform `int` range. -/
def InIntRange (r : Int) : Prop := intMin ≤ r ∧ r ≤ intMax

instance (r : Int) : Decidable (InIntRange r) := by
  unfold InIntRange
  infer_instance

/-- Exponentiation-by-squaring loop of `Expt::evalRator` (main.cpp):
squares the base, multiplies odd bits into the accumulator, and raises
"Fixnum overflow in expt" whenever an intermediate leaves the `int`
range (the check on the squared base only fires while `exp > 1`).
The source computes in `long long`, which never overflows on the
non-erroring path, so unbounded `Int` is a faithful model. -/
def exptLoop (exp : Nat) (result b : Int) : Except EvalErr Int :=
  if h : exp = 0 then .ok result
  else
    let result' := if exp % 2 = 1 then result * b else result
    if exp % 2 = 1 ∧ ¬ InIntRange result' then .error (.rte "Fixnum overflow in expt")
    else
      let b' := b * b
      if ¬ InIntRange b' ∧ 1 < exp then .error (.rte "Fixnum overflow in expt")
      else exptLoop (exp / 2) result' b'
decreasing_by exact Nat.div_lt_self (Nat.pos_of_ne_zero h) (by omega)

/-- `Expt::evalRator` (main.cpp): integer-only exponentiation; negative
exponents and `0^0` are errors; otherwise run the squaring loop. -/
def exptRator : Option SExpr → Option SExpr → Except EvalErr SExpr
  | some (.fixnum base), some (.fixnum exponent) =>
    if exponent < 0 then .error (.rte "Negative exponent not supported for Fixnums")
    else if base = 0 ∧ exponent = 0 then .error (.rte "0^0 is undefined")
    else (exptLoop exponent.toNat 1 base).map .fixnum
  | _, _ => .error (.rte "Wrong typename")

/-- One environment frame (`struct Env`): a name→value mapping
(`std::map<std::string, Expr>`, modelled as an association list with
insert-or-overwrite update) plus an optional parent frame.  Frames live
in a store (list indexed by allocation order) so that the shared,
mutable `EnvPtr` aliasing of the source is represented faithfully. -/
structure Frame where
  bindings : List (String × Option SExpr)
  parent : Option Nat

/-- Arena of every frame allocated so far; `EnvPtr` values are indices. -/
abbrev Store := List Frame

/-- Key lookup in one frame's map. -/
def bindLookup (x : String) : List (String × Option SExpr) → Option (Option SExpr)
  | [] => none
  | (k, v) :: rest => if k = x then some v else bindLookup x rest

/-- Insert-or-overwrite of one key in one frame's map
(`add_bind`'s `find`/`emplace` combination on `std::map`). -/
def bindUpdate (x : String) (v : Option SExpr) :
    List (String × Option SExpr) → List (String × Option SExpr)
  | [] => [(x, v)]
  | (k, w) :: rest => if k = x then (k, v) :: rest else (k, w) :: bindUpdate x v rest

/-- `add_bind(x, v, env)` (expr.cpp): insert or overwrite the binding
directly in the given frame. -/
def add_bind (x : String) (v : Option SExpr) (envId : Nat) (st : Store) : Store :=
  match st.get? envId with
  | some fr => st.set envId { fr with bindings := bindUpdate x v fr.bindings }
  | none => st

/-- `find(x, env)` (expr.cpp): walk the frame chain from `envId` toward
the root and return the first binding found (whose stored handle may
itself be null); `none` is the not-found signal.  The fuel bounds the
walk; any well-formed chain (parent indices strictly decreasing) is
shorter than the store. -/
def findV (st : Store) : Nat → String → Option Nat → Option (Option SExpr)
  | 0, _, _ => none
  | _ + 1, _, none => none
  | fuel + 1, x, some i =>
    match st.get? i with
    | none => none
    | some fr =>
      match bindLookup x fr.bindings with
      | some v => some v
      | none => findV st fuel x fr.parent

/-- First frame of the chain that contains a binding for `x`
(used to state what `modify` overwrites). -/
def firstBound (st : Store) : Nat → String → Option Nat → Option Nat
  | 0, _, _ => none
  | _ + 1, _, none => none
  | fuel + 1, x, some i =>
    match st.get? i with
    | none => none
    | some fr =>
      match bindLookup x fr.bindings with
      | some _ => some i
      | none => firstBound st fuel x fr.parent

/-- `modify(x, v, env)` (expr.cpp, final snapshot): walk the chain and
overwrite the first existing binding of `x` in place; if no frame of the
chain binds `x`, raise the `set!`-on-unbound error. -/
def modifyV (st : Store) : Nat → String → Option SExpr → Option Nat → Except EvalErr Store
  | 0, _, _, _ => .error (.rte "try to set! a non-existent var")
  | _ + 1, _, _, none => .error (.rte "try to set! a non-existent var")
  | fuel + 1, x, v, some i =>
    match st.get? i with
    | none => .error (.rte "try to set! a non-existent var")
    | some fr =>
      match bindLookup x fr.bindings with
      | some _ => .ok (st.set i { fr with bindings := bindUpdate x v fr.bindings })
      | none => modifyV st fuel x v fr.parent

/-- Character class of C `isspace` in the default locale. -/
def cppIsSpace (c : Char) : Bool :=
  c = ' ' || c = Char.ofNat 9 || c = Char.ofNat 10 ||
  c = Char.ofNat 11 || c = Char.ofNat 12 || c = Char.ofNat 13

/-- `is_valid_var` (expr.cpp): a name is valid iff it is non-empty, its
first character is neither a digit nor `@` nor `.`, and no character is
whitespace or one of `#`, the single quote, the double quote, the
backtick. -/
def is_valid_var (s : String) : Bool :=
  match s.data with
  | [] => false
  | c0 :: _ =>
    if (Char.ofNat 48 ≤ c0 && c0 ≤ Char.ofNat 57) || c0 = '@' || c0 = '.' then false
    else s.data.all (fun c =>
      !(cppIsSpace c || c = '#' || c = Char.ofNat 39 || c = Char.ofNat 34 ||
        c = Char.ofNat 96))

/-- `safe_add_bind` (expr.cpp): `assert_valid_var` then `add_bind`. -/
def safe_add_bind (x : String) (v : Option SExpr) (envId : Nat) (st : Store) :
    Except EvalErr Store :=
  if is_valid_var x then .ok (add_bind x v envId st)
  else .error (.rte "not a valid variable name!")

/-- `safe_modify` (expr.cpp): `assert_valid_var` then `modify`. -/
def safe_modify (x : String) (v : Option SExpr) (envId : Nat) (st : Store) :
    Except EvalErr Store :=
  if is_valid_var x then modifyV st st.length x v (some envId)
  else .error (.rte "not a valid variable name!")

/-- Result of one `eval` call: a possibly-null value handle plus the
store of frames after any mutation. -/
abbrev EvalRes := Except EvalErr (Option SExpr × Store)

/-- Shape of the recursive evaluator passed to the one-step dispatcher. -/
abbrev Recur := SExpr → Nat → Store → EvalRes

/-- `is_false` (main.cpp): only a non-null boolean `#f` is false;
a null handle is explicitly not false. -/
def is_false : Option SExpr → Bool
  | some (.boolE b) => !b
  | _ => false

/-- `is_true` (main.cpp). -/
def is_true (a : Option SExpr) : Bool := !is_false a

/-- Modelled from the spec: the global `primitives` name table, which is
defined outside the files under `src/` (only `extern` declarations and the
dispatch switches appear there).  Names follow §4.3 of the spec, restricted
to the operators this development covers. -/
def primitives : String → Option PrimTag
  | "+" => some .plusT
  | "-" => some .minusT
  | "*" => some .mulT
  | "/" => some .divT
  | "expt" => some .exptT
  | "<" => some .ltT
  | "<=" => some .leT
  | "=" => some .eqT
  | ">=" => some .geT
  | ">" => some .gtT
  | "and" => some .andT
  | "or" => some .orT
  | _ => none

/-- Modelled from the spec: the global `reserved_words` name table (see
`primitives` above), restricted to the special forms this development
covers. -/
def reserved_words : String → Option SfTag
  | "begin" => some .beginT
  | "if" => some .ifT
  | "lambda" => some .lambdaT
  | "define" => some .defineT
  | "let" => some .letT
  | "letrec" => some .letrecT
  | "set!" => some .setT
  | _ => none

/-- Extract parameter names from a parsed parameter list: every element
must be a `Var` node (`dynamic_cast<Var*>` per element in the source). -/
def varNames : List SExpr → Option (List String)
  | [] => some []
  | .var x :: rest => (varNames rest).map (x :: ·)
  | _ => none

/-- Extract `let`/`letrec` binding pairs: every element must be a
two-term `SList` whose first term is a `Var`. -/
def letBinds : List SExpr → Option (List (String × SExpr))
  | [] => some []
  | .slist [.var x, e] :: rest => (letBinds rest).map ((x, e) :: ·)
  | _ => none

/-- `std::accumulate` over evaluated operands with a fallible binary
operator, as used by the variadic arithmetic `evalRator`s. -/
def accumOp (h : Option SExpr → Option SExpr → Except EvalErr SExpr)
    (acc : Option SExpr) : List (Option SExpr) → Except EvalErr (Option SExpr)
  | [] => .ok acc
  | x :: xs => do
    let r ← h acc x
    accumOp h (some r) xs

/-- `PlusVar::evalRator` (main.cpp, final snapshot): fold `H_Plus` over
all operands starting from the integer 0. -/
def plusVarRator (args : List (Option SExpr)) : Except EvalErr (Option SExpr) :=
  accumOp hPlus (some (.fixnum 0)) args

/-- `MultVar::evalRator` (main.cpp, final snapshot): fold `H_Mult` over
all operands starting from the integer 1. -/
def multVarRator (args : List (Option SExpr)) : Except EvalErr (Option SExpr) :=
  accumOp hMult (some (.fixnum 1)) args

/-- `MinusVar::evalRator` (main.cpp, final snapshot): one operand is the
section `0 - x`; otherwise fold `H_Minus` from the first operand.  The
dispatcher rejects empty operand lists before this runs (the source
would read past the empty vector there). -/
def minusVarRator (args : List (Option SExpr)) : Except EvalErr (Option SExpr) :=
  match args with
  | [] => .error (.rte "Wrong number of arguments for -")
  | [v] => (hMinus (some (.fixnum 0)) v).map some
  | v :: rest => accumOp hMinus v rest

/-- `DivVar::evalRator` (main.cpp, final snapshot): one operand is the
reciprocal `1 / x`; otherwise fold `H_Div` from the first operand. -/
def divVarRator (args : List (Option SExpr)) : Except EvalErr (Option SExpr) :=
  match args with
  | [] => .error (.rte "Wrong number of arguments for /")
  | [v] => (hDiv (some (.fixnum 1)) v).map some
  | v :: rest => accumOp hDiv v rest

/-- `Variadic::eval` operand pass: evaluate every operand left-to-right,
threading the store. -/
def evalListWith (recur : Recur) :
    List SExpr → Nat → Store → Except EvalErr (List (Option SExpr) × Store)
  | [], _, st => .ok ([], st)
  | x :: xs, env, st => do
    let (v, st1) ← recur x env st
    let (vs, st2) ← evalListWith recur xs env st1
    .ok (v :: vs, st2)

/-- `Begin::eval` (main.cpp, final snapshot): an empty sequence yields a
null handle; otherwise evaluate each expression for effect and return
the last result. -/
def evalSeqWith (recur : Recur) : List SExpr → Nat → Store → EvalRes
  | [], _, st => .ok (none, st)
  | [x], env, st => recur x env st
  | x :: xs, env, st => do
    let (_, st1) ← recur x env st
    evalSeqWith recur xs env st1

/-- Loop of `AndVar::eval` (main.cpp, final snapshot), carrying the last
evaluated value: return the first falsy value without evaluating the
rest, or the carried value when the operands run out. -/
def andLoopWith (recur : Recur) :
    Option SExpr → List SExpr → Nat → Store → EvalRes
  | last, [], _, st => .ok (last, st)
  | _, x :: xs, env, st => do
    let (v, st1) ← recur x env st
    if is_false v then .ok (v, st1) else andLoopWith recur v xs env st1

/-- Loop of `OrVar::eval` (main.cpp, final snapshot). -/
def orLoopWith (recur : Recur) :
    Option SExpr → List SExpr → Nat → Store → EvalRes
  | last, [], _, st => .ok (last, st)
  | _, x :: xs, env, st => do
    let (v, st1) ← recur x env st
    if is_true v then .ok (v, st1) else orLoopWith recur v xs env st1

/-- Binding loop shared by `Let::eval` and `Letrec::eval` (main.cpp,
final snapshot): evaluate each initializer in `initEnv` and bind the
result into `bindEnv`.  `Let` passes the outer frame as `initEnv`,
`Letrec` passes the freshly created frame. -/
def evalBindsWith (recur : Recur) (initEnv bindEnv : Nat) :
    List (String × SExpr) → Store → Except EvalErr Store
  | [], st => .ok st
  | (x, ex) :: rest, st => do
    let (v, st1) ← recur ex initEnv st
    evalBindsWith recur initEnv bindEnv rest (add_bind x v bindEnv st1)

/-- `Apply::eval` (main.cpp, final snapshot): exact arity check, then a
new frame whose parent is the closure's captured frame, parameters bound
to the already-evaluated arguments, and the body evaluated there. -/
def applyProcWith (recur : Recur) (params : List String) (body : SExpr)
    (penv : Nat) (args : List (Option SExpr)) (st : Store) : EvalRes :=
  if args.length ≠ params.length then .error (.rte "Wrong number of arguments")
  else
    let nf := st.length
    let st1 := st ++ [⟨[], some penv⟩]
    let st2 := (params.zip args).foldl (fun acc pa => add_bind pa.1 pa.2 nf acc) st1
    recur body nf st2

/-- Primitive-tag dispatch of `SList::eval` (main.cpp, final snapshot):
wrap the unevaluated operands in the operator's expression variant and
evaluate it, enforcing the per-operator arity rules. -/
def primDispatch (recur : Recur) (t : PrimTag) (rand : List SExpr)
    (env : Nat) (st : Store) : EvalRes :=
  match t with
  | .plusT => recur (.plusVar rand) env st
  | .minusT =>
    if rand.isEmpty then .error (.rte "Wrong number of arguments for -")
    else recur (.minusVar rand) env st
  | .mulT => recur (.multVar rand) env st
  | .divT =>
    if rand.isEmpty then .error (.rte "Wrong number of arguments for /")
    else recur (.divVar rand) env st
  | .exptT =>
    match rand with
    | [a, b] => recur (.exptB a b) env st
    | _ => .error (.rte "Wrong number of arguments for expt")
  | .ltT => recur (.lessVar rand) env st
  | .leT => recur (.lessEqVar rand) env st
  | .eqT => recur (.equalVar rand) env st
  | .geT => recur (.greaterEqVar rand) env st
  | .gtT => recur (.greaterVar rand) env st
  | .andT => recur (.andE rand) env st
  | .orT => recur (.orE rand) env st

/-- Special-form dispatch of `SList::eval` (main.cpp, final snapshot). -/
def sfDispatch (recur : Recur) (t : SfTag) (rand : List SExpr)
    (env : Nat) (st : Store) : EvalRes :=
  match t with
  | .beginT => recur (.beginE rand) env st
  | .ifT =>
    match rand with
    | [c, tt, ee] => recur (.ifE c tt ee) env st
    | _ => .error (.rte "Wrong number of arguments for if")
  | .lambdaT =>
    match rand with
    | [] => .error (.rte "Wrong number of arguments for lambda")
    | [_] => .error (.rte "Wrong number of arguments for lambda")
    | ps :: rest =>
      match ps with
      | .slist vars =>
        match varNames vars with
        | some names => recur (.lambdaE names (.beginE rest)) env st
        | none => .error (.rte "lambda parameter is not Var")
      | _ => .error (.rte "lambda takes a list as the 1st parameter")
  | .defineT =>
    match rand with
    | [] => .error (.rte "define takes a Var or list as the 1st parameter")
    | a :: rest =>
      match a, rest with
      | .var v, [e] => recur (.defineE v e) env st
      | _, _ =>
        match a with
        | .slist vars =>
          match vars with
          | [] => .error (.rte "lambda name is not Var")
          | nameE :: ps =>
            match nameE with
            | .var fname =>
              match varNames ps with
              | some params =>
                if rest.isEmpty then
                  -- the source reads `rand[1]` unconditionally here
                  .error (.rte "Wrong number of arguments for define")
                else recur (.defineF fname params rest) env st
              | none => .error (.rte "lambda parameter is not Var")
            | _ => .error (.rte "lambda name is not Var")
        | _ => .error (.rte "define takes a Var or list as the 1st parameter")
  | .letT =>
    match rand with
    | [] => .error (.rte "Wrong number of arguments for let")
    | [_] => .error (.rte "Wrong number of arguments for let")
    | a :: rest =>
      match a with
      | .slist prs =>
        match letBinds prs with
        | some binds => recur (.letE binds rest) env st
        | none => .error (.rte "Wrong form of arguments for let")
      | _ => .error (.rte "let takes a list as the 1st parameter")
  | .letrecT =>
    match rand with
    | [] => .error (.rte "Wrong number of arguments for letrec")
    | [_] => .error (.rte "Wrong number of arguments for letrec")
    | a :: rest =>
      match a with
      | .slist prs =>
        match letBinds prs with
        | some binds => recur (.letrecE binds rest) env st
        | none => .error (.rte "Wrong form of arguments for letrec")
      | _ => .error (.rte "let takes a list as the 1st parameter")
  | .setT =>
    match rand with
    | [a, b] =>
      match a with
      | .var v => recur (.setE v b) env st
      | _ => .error (.rte "Unknown reserved word")
    | _ => .error (.rte "Wrong number of arguments for set!")

/-- One step of the evaluator: the complete `eval` dispatch over the
modelled expression variants (main.cpp, final snapshot), parameterised
by the recursive evaluator so that the fuelled fixpoint below stays a
structural recursion. -/
def evalStep (recur : Recur) (e : SExpr) (env : Nat) (st : Store) : EvalRes :=
  match e with
  | .fixnum n => .ok (some (.fixnum n), st)
  | .rational n d => .ok (some (.rational n d), st)
  | .strE s => .ok (some (.strE s), st)
  | .boolE b => .ok (some (.boolE b), st)
  | .voidE => .ok (some .voidE, st)
  | .nullE => .ok (some .nullE, st)
  | .pairE a b => .ok (some (.pairE a b), st)
  | .procV ps body penv => .ok (some (.procV ps body penv), st)
  | .primV t => .ok (some (.primV t), st)
  | .sfV t => .ok (some (.sfV t), st)
  | .var x =>
    match findV st st.length x (some env) with
    | some (some v) => .ok (some v, st)
    | _ =>
      match primitives x with
      | some t => .ok (some (.primV t), st)
      | none =>
        match reserved_words x with
        | some t => .ok (some (.sfV t), st)
        | none => .error (.rte "undefined variable")
  | .slist terms =>
    match terms with
    | [] => .error (.rte "Attempt to apply a non-procedure")
    | hd :: tl => do
      let (p, st1) ← recur hd env st
      match p with
      | some (.procV params body penv) => do
        let (args, st2) ← evalListWith recur tl env st1
        applyProcWith recur params body penv args st2
      | some (.primV t) => primDispatch recur t tl env st1
      | some (.sfV t) => sfDispatch recur t tl env st1
      | _ => .error (.rte "Attempt to apply a non-procedure")
  | .beginE es => evalSeqWith recur es env st
  | .ifE c conseq alter => do
    let (cv, st1) ← recur c env st
    if is_false cv then recur alter env st1 else recur conseq env st1
  | .andE rands =>
    if rands.isEmpty then .ok (some (.boolE true), st)
    else andLoopWith recur (some (.boolE true)) rands env st
  | .orE rands =>
    if rands.isEmpty then .ok (some (.boolE false), st)
    else orLoopWith recur (some (.boolE false)) rands env st
  | .lambdaE x body => .ok (some (.procV x body env), st)
  | .defineE v ex => do
    let (val, st1) ← recur ex env st
    .ok (none, add_bind v val env st1)
  | .defineF v x es =>
    .ok (none, add_bind v (some (.procV x (.beginE es) env)) env st)
  | .letE bind body => do
    let st1 ← evalBindsWith recur env st.length bind (st ++ [⟨[], some env⟩])
    recur (.beginE body) st.length st1
  | .letrecE bind body => do
    let st1 ← evalBindsWith recur st.length st.length bind (st ++ [⟨[], some env⟩])
    recur (.beginE body) st.length st1
  | .setE v ex => do
    let (val, st1) ← recur ex env st
    let st2 ← modifyV st1 st1.length v val (some env)
    .ok (none, st2)
  | .plusVar rands => do
    let (vs, st1) ← evalListWith recur rands env st
    let r ← plusVarRator vs
    .ok (r, st1)
  | .minusVar rands => do
    let (vs, st1) ← evalListWith recur rands env st
    let r ← minusVarRator vs
    .ok (r, st1)
  | .multVar rands => do
    let (vs, st1) ← evalListWith recur rands env st
    let r ← multVarRator vs
    .ok (r, st1)
  | .divVar rands => do
    let (vs, st1) ← evalListWith recur rands env st
    let r ← divVarRator vs
    .ok (r, st1)
  | .exptB r1 r2 => do
    let (v1, st1) ← recur r1 env st
    let (v2, st2) ← recur r2 env st1
    let r ← exptRator v1 v2
    .ok (some r, st2)
  | .lessVar rands => do
    let (vs, st1) ← evalListWith recur rands env st
    let r ← hCmpVar hLess vs
    .ok (r, st1)
  | .lessEqVar rands => do
    let (vs, st1) ← evalListWith recur rands env st
    let r ← hCmpVar hLessEq vs
    .ok (r, st1)
  | .equalVar rands => do
    let (vs, st1) ← evalListWith recur rands env st
    let r ← hCmpVar hEqual vs
    .ok (r, st1)
  | .greaterEqVar rands => do
    let (vs, st1) ← evalListWith recur rands env st
    let r ← hCmpVar hGreaterEq vs
    .ok (r, st1)
  | .greaterVar rands => do
    let (vs, st1) ← evalListWith recur rands env st
    let r ← hCmpVar hGreater vs
    .ok (r, st1)

/-- Fuelled evaluator: each `eval` call of the source consumes one unit
of fuel; `evalStep` performs the dispatch. -/
def evalE : Nat → SExpr → Nat → Store → EvalRes
  | 0, _, _, _ => .error .fuel
  | fuel + 1, e, env, st => evalStep (evalE fuel) e env st

theorem evalE_succ (fuel : Nat) (e : SExpr) (env : Nat) (st : Store) :
    evalE (fuel + 1) e env st = evalStep (evalE fuel) e env st := rfl

/-- REPL loop state: the global environment is a single root frame. -/
def globalStore : Store := [⟨[], none⟩]

/-- Evaluate top-level forms in order against the shared global frame
(as the REPL does) and return the last form's value. -/
def runForms (fuel : Nat) : List SExpr → Store → Except EvalErr (Option SExpr)
  | [], _ => .ok none
  | [x], st => (evalE fuel x 0 st).map Prod.fst
  | x :: xs, st => do
    let (_, st1) ← evalE fuel x 0 st
    runForms fuel xs st1

/-- Run a program from the initial REPL state. -/
def runProgram (fuel : Nat) (prog : List SExpr) : Except EvalErr (Option SExpr) :=
  runForms fuel prog globalStore

theorem toRat_of_posDen (v : SExpr) (h : PosDen v) :
    toRat v = some (valNum v, valDen v) ∧ 0 < valDen v := by
  cases v <;> simp [PosDen, toRat, valNum, valDen] at h ⊢ <;> exact h

theorem valNum_mkRatValue (n d : Int) :
    valNum (mkRatValue n d) = (ratNormalize n d).1 := by
  simp only [mkRatValue]
  by_cases h1 : (ratNormalize n d).2 = 1
  · rw [if_pos h1]; rfl
  · rw [if_neg h1]; rfl

theorem valDen_mkRatValue (n d : Int) :
    valDen (mkRatValue n d) = (ratNormalize n d).2 := by
  simp only [mkRatValue]
  by_cases h1 : (ratNormalize n d).2 = 1
  · rw [if_pos h1, h1]; rfl
  · rw [if_neg h1]; rfl

theorem mkRatValue_core (n d : Int) (hd : d ≠ 0) :
    CanonicalNum (mkRatValue n d) ∧ PosDen (mkRatValue n d) ∧
    valNum (mkRatValue n d) * d = n * valDen (mkRatValue n d) ∧
    (isFixE (mkRatValue n d) ↔ valDen (mkRatValue n d) = 1) := by
  obtain ⟨hc, hp, hfix, hval⟩ := mkRatValue_spec n d hd
  refine ⟨hc, hp, hval, ?_⟩
  rw [valDen_mkRatValue]
  exact hfix

/-- C3: every numeric value produced by the tower is canonical — the
rational constructor divides out `gcd(|n|,|d|)` and forces a positive
denominator while preserving the represented fraction, and each of the
four arithmetic operators combines its operands by cross-multiplication
(stated as an exact integer identity between input and output fractions),
re-normalises, and yields an integer node exactly when the reduced
denominator is 1. -/
theorem C3_numeric_tower_canonical :
    (∀ n d : Int, d ≠ 0 →
        0 < (ratNormalize n d).2 ∧
        Nat.gcd (ratNormalize n d).1.natAbs (ratNormalize n d).2.natAbs = 1 ∧
        (ratNormalize n d).1 * d = n * (ratNormalize n d).2) ∧
    (∀ v1 v2 w, PosDen v1 → PosDen v2 → hPlus (some v1) (some v2) = .ok w →
        CanonicalNum w ∧ PosDen w ∧
        valNum w * (valDen v1 * valDen v2)
          = (valNum v1 * valDen v2 + valDen v1 * valNum v2) * valDen w ∧
        (isFixE w ↔ valDen w = 1)) ∧
    (∀ v1 v2 w, PosDen v1 → PosDen v2 → hMinus (some v1) (some v2) = .ok w →
        CanonicalNum w ∧ PosDen w ∧
        valNum w * (valDen v1 * valDen v2)
          = (valNum v1 * valDen v2 - valDen v1 * valNum v2) * valDen w ∧
        (isFixE w ↔ valDen w = 1)) ∧
    (∀ v1 v2 w, PosDen v1 → PosDen v2 → hMult (some v1) (some v2) = .ok w →
        CanonicalNum w ∧ PosDen w ∧
        valNum w * (valDen v1 * valDen v2)
          = (valNum v1 * valNum v2) * valDen w ∧
        (isFixE w ↔ valDen w = 1)) ∧
    (∀ v1 v2 w, PosDen v1 → PosDen v2 → hDiv (some v1) (some v2) = .ok w →
        CanonicalNum w ∧ PosDen w ∧
        valNum w * (valDen v1 * valNum v2)
          = (valNum v1 * valDen v2) * valDen w ∧
        (isFixE w ↔ valDen w = 1)) := by
  refine ⟨ratNormalize_spec, ?_, ?_, ?_, ?_⟩
  · intro v1 v2 w h1 h2 hok
    obtain ⟨ht1, hp1⟩ := toRat_of_posDen v1 h1
    obtain ⟨ht2, hp2⟩ := toRat_of_posDen v2 h2
    rw [hPlus, ht1, ht2] at hok
    have hw : w = mkRatValue (valNum v1 * valDen v2 + valDen v1 * valNum v2)
        (valDen v1 * valDen v2) := by
      cases hok
      rfl
    subst hw
    exact mkRatValue_core _ _ (by positivity)
  · intro v1 v2 w h1 h2 hok
    obtain ⟨ht1, hp1⟩ := toRat_of_posDen v1 h1
    obtain ⟨ht2, hp2⟩ := toRat_of_posDen v2 h2
    rw [hMinus, ht1, ht2] at hok
    have hw : w = mkRatValue (valNum v1 * valDen v2 - valDen v1 * valNum v2)
        (valDen v1 * valDen v2) := by
      cases hok
      rfl
    subst hw
    exact mkRatValue_core _ _ (by positivity)
  · intro v1 v2 w h1 h2 hok
    obtain ⟨ht1, hp1⟩ := toRat_of_posDen v1 h1
    obtain ⟨ht2, hp2⟩ := toRat_of_posDen v2 h2
    rw [hMult, ht1, ht2] at hok
    have hw : w = mkRatValue (valNum v1 * valNum v2) (valDen v1 * valDen v2) := by
      cases hok
      rfl
    subst hw
    exact mkRatValue_core _ _ (by positivity)
  · intro v1 v2 w h1 h2 hok
    obtain ⟨ht1, hp1⟩ := toRat_of_posDen v1 h1
    obtain ⟨ht2, hp2⟩ := toRat_of_posDen v2 h2
    simp only [hDiv, ht1, ht2] at hok
    by_cases hz : valNum v2 = 0
    · rw [if_pos hz] at hok
      exact absurd hok (by simp)
    · rw [if_neg hz] at hok
      have hw : w = mkRatValue (valNum v1 * valDen v2) (valDen v1 * valNum v2) := by
        cases hok
        rfl
      subst hw
      exact mkRatValue_core _ _ (mul_ne_zero (by omega) hz)

/-- Witness for C3 at concrete inputs: the constructor input `6/(-4)`
normalises to `-3/2`, and `1/2 + 1/3 = 5/6` stays rational while the
operator contract instantiates at it. -/
theorem C3_numeric_tower_canonical_witness :
    (0 < (ratNormalize 6 (-4)).2 ∧
     Nat.gcd (ratNormalize 6 (-4)).1.natAbs (ratNormalize 6 (-4)).2.natAbs = 1 ∧
     (ratNormalize 6 (-4)).1 * (-4) = 6 * (ratNormalize 6 (-4)).2) ∧
    (CanonicalNum (SExpr.rational 5 6) ∧ PosDen (SExpr.rational 5 6) ∧
     valNum (SExpr.rational 5 6) * (valDen (SExpr.rational 1 2) * valDen (SExpr.rational 1 3))
       = (valNum (SExpr.rational 1 2) * valDen (SExpr.rational 1 3) +
          valDen (SExpr.rational 1 2) * valNum (SExpr.rational 1 3)) * valDen (SExpr.rational 5 6) ∧
     (isFixE (SExpr.rational 5 6) ↔ valDen (SExpr.rational 5 6) = 1)) := by
  constructor
  · exact C3_numeric_tower_canonical.1 6 (-4) (by decide)
  · exact C3_numeric_tower_canonical.2.1 (.rational 1 2) (.rational 1 3) (.rational 5 6)
      (show (0:Int) < 2 by norm_num) (show (0:Int) < 3 by norm_num) (by rfl)

/-- C10: the variadic arithmetic operators treat 0 and 1 as identity
elements and a single operand as a section: `(+)` evaluates to 0, `(*)`
to 1, `(- x)` is exactly `0 - x` (shown to negate the represented
fraction), and `(/ x)` is exactly `1 / x` (shown to invert the
represented fraction when `x` is a non-zero number). -/
theorem C10_variadic_identity_sections :
    runProgram 5 [.slist [.var "+"]] = .ok (some (.fixnum 0)) ∧
    runProgram 5 [.slist [.var "*"]] = .ok (some (.fixnum 1)) ∧
    runProgram 5 [.slist [.var "-", .fixnum 7]] = .ok (some (.fixnum (-7))) ∧
    runProgram 5 [.slist [.var "/", .fixnum 4]] = .ok (some (.rational 1 4)) ∧
    (∀ v, minusVarRator [v] = (hMinus (some (.fixnum 0)) v).map some) ∧
    (∀ v, divVarRator [v] = (hDiv (some (.fixnum 1)) v).map some) ∧
    (∀ v w, PosDen v → minusVarRator [some v] = .ok (some w) →
      CanonicalNum w ∧ valNum w * valDen v = -(valNum v) * valDen w) ∧
    (∀ v w, PosDen v → divVarRator [some v] = .ok (some w) →
      CanonicalNum w ∧ valNum w * valNum v = valDen v * valDen w) := by
  refine ⟨by rfl, by rfl, by rfl, by rfl, fun v => rfl, fun v => rfl, ?_, ?_⟩
  · intro v w hv hok
    cases v
    case fixnum n =>
      simp only [minusVarRator, hMinus, toRat, Except.map, zero_mul, one_mul,
        zero_sub, mul_one, Except.ok.injEq, Option.some.injEq] at hok
      subst hok
      obtain ⟨hc, _, hval, _⟩ := mkRatValue_core (-n) 1 one_ne_zero
      exact ⟨hc, hval⟩
    case rational n d =>
      have hd : d ≠ 0 := by
        simp only [PosDen] at hv
        omega
      simp only [minusVarRator, hMinus, toRat, Except.map, zero_mul, one_mul,
        zero_sub, Except.ok.injEq, Option.some.injEq] at hok
      subst hok
      obtain ⟨hc, _, hval, _⟩ := mkRatValue_core (-n) d hd
      exact ⟨hc, hval⟩
    all_goals exact hv.elim
  · intro v w hv hok
    cases v
    case fixnum n =>
      by_cases hz : n = 0
      · subst hz
        simp [divVarRator, hDiv, toRat, Except.map] at hok
      · simp only [divVarRator, hDiv, toRat, Except.map, one_mul, mul_one,
          if_neg hz, Except.ok.injEq, Option.some.injEq] at hok
        subst hok
        obtain ⟨hc, _, hval, _⟩ := mkRatValue_core 1 n hz
        exact ⟨hc, hval⟩
    case rational n d =>
      by_cases hz : n = 0
      · subst hz
        simp [divVarRator, hDiv, toRat, Except.map] at hok
      · simp only [divVarRator, hDiv, toRat, Except.map, one_mul,
          if_neg hz, Except.ok.injEq, Option.some.injEq] at hok
        subst hok
        obtain ⟨hc, _, hval, _⟩ := mkRatValue_core d n hz
        exact ⟨hc, hval⟩
    all_goals exact hv.elim

/-- Witness for C10 at `x = 2/3`: negation gives `-2/3` and the
reciprocal gives `3/2`. -/
theorem C10_variadic_identity_sections_witness :
    (CanonicalNum (SExpr.rational (-2) 3) ∧
     valNum (SExpr.rational (-2) 3) * valDen (SExpr.rational 2 3)
       = -(valNum (SExpr.rational 2 3)) * valDen (SExpr.rational (-2) 3)) ∧
    (CanonicalNum (SExpr.rational 3 2) ∧
     valNum (SExpr.rational 3 2) * valNum (SExpr.rational 2 3)
       = valDen (SExpr.rational 2 3) * valDen (SExpr.rational 3 2)) := by
  constructor
  · exact C10_variadic_identity_sections.2.2.2.2.2.2.1 (.rational 2 3) (.rational (-2) 3)
      (show (0:Int) < 3 by norm_num) (by rfl)
  · exact C10_variadic_identity_sections.2.2.2.2.2.2.2 (.rational 2 3) (.rational 3 2)
      (show (0:Int) < 3 by norm_num) (by rfl)

/-- A value carrying a numeric tag (`isNum` in the source). -/
def IsNumV : SExpr → Prop
  | .fixnum _ => True
  | .rational _ _ => True
  | _ => False

/-- Three-way outcome `-1`/`0`/`1` shared by all comparison branches. -/
def threeWayCmp (a b : Int) : Int :=
  if a < b then -1 else if b < a then 1 else 0

theorem threeWayCmp_eq_neg_one {a b : Int} : threeWayCmp a b = -1 ↔ a < b := by
  unfold threeWayCmp
  by_cases h : a < b
  · simp [h]
  · by_cases h2 : b < a <;> simp [h, h2]

theorem threeWayCmp_eq_zero {a b : Int} : threeWayCmp a b = 0 ↔ a = b := by
  unfold threeWayCmp
  by_cases h : a < b
  · simp [h]
    omega
  · by_cases h2 : b < a <;> simp [h, h2] <;> omega

theorem threeWayCmp_eq_one {a b : Int} : threeWayCmp a b = 1 ↔ b < a := by
  unfold threeWayCmp
  by_cases h : a < b
  · simp [h]
    omega
  · by_cases h2 : b < a <;> simp [h, h2]

theorem compareNE_spec (v1 v2 : SExpr) (h1 : IsNumV v1) (h2 : IsNumV v2) :
    compareNE (some v1) (some v2)
      = .ok (threeWayCmp (valNum v1 * valDen v2) (valNum v2 * valDen v1)) := by
  cases v1 <;> cases v2 <;>
    first
    | exact h1.elim
    | exact h2.elim
    | simp [compareNE, valNum, valDen, threeWayCmp, mul_one, one_mul]

theorem hLess_spec (v1 v2 : SExpr) (h1 : IsNumV v1) (h2 : IsNumV v2) :
    hLess (some v1) (some v2)
      = .ok (decide (valNum v1 * valDen v2 < valNum v2 * valDen v1)) := by
  rw [hLess, compareNE_spec v1 v2 h1 h2]
  simp only [Except.map]
  congr 1
  exact decide_eq_decide.mpr threeWayCmp_eq_neg_one

theorem hLessEq_spec (v1 v2 : SExpr) (h1 : IsNumV v1) (h2 : IsNumV v2) :
    hLessEq (some v1) (some v2)
      = .ok (decide (valNum v1 * valDen v2 ≤ valNum v2 * valDen v1)) := by
  rw [hLessEq, compareNE_spec v1 v2 h1 h2]
  simp only [Except.map, Except.ok.injEq]
  rcases lt_trichotomy (valNum v1 * valDen v2) (valNum v2 * valDen v1) with h | h | h
  · simp [threeWayCmp, h, h.le]
  · simp [threeWayCmp, h, lt_irrefl]
  · simp [threeWayCmp, lt_asymm h, h, not_le.mpr h]

theorem hEqual_spec (v1 v2 : SExpr) (h1 : IsNumV v1) (h2 : IsNumV v2) :
    hEqual (some v1) (some v2)
      = .ok (decide (valNum v1 * valDen v2 = valNum v2 * valDen v1)) := by
  rw [hEqual, compareNE_spec v1 v2 h1 h2]
  simp only [Except.map, Except.ok.injEq]
  exact decide_eq_decide.mpr threeWayCmp_eq_zero

theorem hGreaterEq_spec (v1 v2 : SExpr) (h1 : IsNumV v1) (h2 : IsNumV v2) :
    hGreaterEq (some v1) (some v2)
      = .ok (decide (valNum v2 * valDen v1 ≤ valNum v1 * valDen v2)) := by
  rw [hGreaterEq, compareNE_spec v1 v2 h1 h2]
  simp only [Except.map, Except.ok.injEq]
  rcases lt_trichotomy (valNum v1 * valDen v2) (valNum v2 * valDen v1) with h | h | h
  · simp [threeWayCmp, h, not_le.mpr h]
  · simp [threeWayCmp, h, lt_irrefl]
  · simp [threeWayCmp, lt_asymm h, h, h.le]

theorem hGreater_spec (v1 v2 : SExpr) (h1 : IsNumV v1) (h2 : IsNumV v2) :
    hGreater (some v1) (some v2)
      = .ok (decide (valNum v2 * valDen v1 < valNum v1 * valDen v2)) := by
  rw [hGreater, compareNE_spec v1 v2 h1 h2]
  simp only [Except.map, Except.ok.injEq]
  exact decide_eq_decide.mpr threeWayCmp_eq_one

theorem chainCmp_spec (R : SExpr → SExpr → Prop) [DecidableRel R]
    (cmp : Option SExpr → Option SExpr → Except EvalErr Bool)
    (hcmp : ∀ v1 v2, IsNumV v1 → IsNumV v2 →
      cmp (some v1) (some v2) = .ok (decide (R v1 v2))) :
    ∀ (xs : List SExpr) (x : SExpr), IsNumV x → (∀ v ∈ xs, IsNumV v) →
      chainCmp cmp (some x) (xs.map some)
        = .ok (decide (List.Chain' R (x :: xs))) := by
  intro xs
  induction xs with
  | nil =>
    intro x _ _
    simp [chainCmp, List.chain'_singleton]
  | cons y ys ih =>
    intro x hx hall
    have hy : IsNumV y := hall y (by simp)
    have hys : ∀ v ∈ ys, IsNumV v := fun v hv => hall v (by simp [hv])
    rw [List.map_cons, chainCmp, hcmp x y hx hy]
    by_cases hR : R x y
    · simp [hR, bind, Except.bind, ih y hy hys, List.chain'_cons]
    · simp [hR, bind, Except.bind, List.chain'_cons]

theorem hCmpVar_spec (R : SExpr → SExpr → Prop) [DecidableRel R]
    (cmp : Option SExpr → Option SExpr → Except EvalErr Bool)
    (hcmp : ∀ v1 v2, IsNumV v1 → IsNumV v2 →
      cmp (some v1) (some v2) = .ok (decide (R v1 v2))) :
    ∀ (vs : List SExpr), (∀ v ∈ vs, IsNumV v) →
      hCmpVar cmp (vs.map some) = .ok (some (.boolE (decide (List.Chain' R vs)))) := by
  intro vs hall
  match vs with
  | [] => simp [hCmpVar]
  | [v] => simp [hCmpVar, List.chain'_singleton]
  | x :: y :: ys =>
    have hx : IsNumV x := hall x (by simp)
    have hrest : ∀ v ∈ y :: ys, IsNumV v := fun v hv => hall v (by simp at hv ⊢; tauto)
    have hc := chainCmp_spec R cmp hcmp (y :: ys) x hx hrest
    rw [List.map_cons] at hc
    simp only [List.map_cons, hCmpVar, hc, Except.map]

/-- C6: every chained variadic comparison (`< <= = >= >`) over numeric
operands returns `#t` iff every adjacent pair satisfies the relation,
decided by the three-way cross-multiplication comparison; the pair loop
short-circuits at the first failing pair (the remaining operands are
never compared, whatever they are); 0 or 1 operands are vacuously `#t`;
and `(< 1 2 3)`, `(< 1 3 2)`, `(<)`, `(< 1)` behave as specified
end-to-end. -/
theorem C6_chained_comparisons :
    (∀ v1 v2, IsNumV v1 → IsNumV v2 →
      compareNE (some v1) (some v2)
        = .ok (threeWayCmp (valNum v1 * valDen v2) (valNum v2 * valDen v1))) ∧
    (∀ vs : List SExpr, (∀ v ∈ vs, IsNumV v) →
      hCmpVar hLess (vs.map some)
        = .ok (some (.boolE (decide (List.Chain'
            (fun a b => valNum a * valDen b < valNum b * valDen a) vs))))) ∧
    (∀ vs : List SExpr, (∀ v ∈ vs, IsNumV v) →
      hCmpVar hLessEq (vs.map some)
        = .ok (some (.boolE (decide (List.Chain'
            (fun a b => valNum a * valDen b ≤ valNum b * valDen a) vs))))) ∧
    (∀ vs : List SExpr, (∀ v ∈ vs, IsNumV v) →
      hCmpVar hEqual (vs.map some)
        = .ok (some (.boolE (decide (List.Chain'
            (fun a b => valNum a * valDen b = valNum b * valDen a) vs))))) ∧
    (∀ vs : List SExpr, (∀ v ∈ vs, IsNumV v) →
      hCmpVar hGreaterEq (vs.map some)
        = .ok (some (.boolE (decide (List.Chain'
            (fun a b => valNum b * valDen a ≤ valNum a * valDen b) vs))))) ∧
    (∀ vs : List SExpr, (∀ v ∈ vs, IsNumV v) →
      hCmpVar hGreater (vs.map some)
        = .ok (some (.boolE (decide (List.Chain'
            (fun a b => valNum b * valDen a < valNum a * valDen b) vs))))) ∧
    (∀ (cmp : Option SExpr → Option SExpr → Except EvalErr Bool) x y rest,
      cmp x y = .ok false →
      hCmpVar cmp (x :: y :: rest) = .ok (some (.boolE false))) ∧
    (∀ cmp, hCmpVar cmp [] = .ok (some (.boolE true))) ∧
    (∀ cmp v, hCmpVar cmp [v] = .ok (some (.boolE true))) ∧
    runProgram 5 [.slist [.var "<", .fixnum 1, .fixnum 2, .fixnum 3]]
      = .ok (some (.boolE true)) ∧
    runProgram 5 [.slist [.var "<", .fixnum 1, .fixnum 3, .fixnum 2]]
      = .ok (some (.boolE false)) ∧
    runProgram 5 [.slist [.var "<"]] = .ok (some (.boolE true)) ∧
    runProgram 5 [.slist [.var "<", .fixnum 1]] = .ok (some (.boolE true)) := by
  refine ⟨compareNE_spec,
    hCmpVar_spec _ hLess hLess_spec,
    hCmpVar_spec _ hLessEq hLessEq_spec,
    hCmpVar_spec _ hEqual hEqual_spec,
    hCmpVar_spec _ hGreaterEq hGreaterEq_spec,
    hCmpVar_spec _ hGreater hGreater_spec,
    ?_, fun cmp => rfl, fun cmp v => rfl, by rfl, by rfl, by rfl, by rfl⟩
  intro cmp x y rest hfail
  have hv : hCmpVar cmp (x :: y :: rest)
      = Except.map (fun b => some (SExpr.boolE b)) (chainCmp cmp x (y :: rest)) := rfl
  rw [hv, chainCmp, hfail]
  simp [bind, Except.bind, Except.map]

/-- Witness for C6: the chain characterisation applied at `1 2 3` and
`1 3 2`, and the short-circuit lemma applied with a failing first pair
followed by a non-numeric operand. -/
theorem C6_chained_comparisons_witness :
    hCmpVar hLess ([SExpr.fixnum 1, SExpr.fixnum 2, SExpr.fixnum 3].map some)
      = .ok (some (.boolE true)) ∧
    hCmpVar hLess ([SExpr.fixnum 1, SExpr.fixnum 3, SExpr.fixnum 2].map some)
      = .ok (some (.boolE false)) ∧
    hCmpVar hLess (some (SExpr.fixnum 3) :: some (SExpr.fixnum 1) :: [some (SExpr.strE "x")])
      = .ok (some (.boolE false)) := by
  refine ⟨?_, ?_, ?_⟩
  · have h := C6_chained_comparisons.2.1 [SExpr.fixnum 1, SExpr.fixnum 2, SExpr.fixnum 3]
      (by intro v hv; simp at hv; rcases hv with h | h | h <;> simp [h, IsNumV])
    rw [h]
    norm_num [List.chain'_cons, List.chain'_singleton, valNum, valDen]
  · have h := C6_chained_comparisons.2.1 [SExpr.fixnum 1, SExpr.fixnum 3, SExpr.fixnum 2]
      (by intro v hv; simp at hv; rcases hv with h | h | h <;> simp [h, IsNumV])
    rw [h]
    norm_num [List.chain'_cons, List.chain'_singleton, valNum, valDen]
  · exact C6_chained_comparisons.2.2.2.2.2.2.1 hLess (some (.fixnum 3))
      (some (.fixnum 1)) [some (.strE "x")] (by rfl)

theorem pow_half_sq (b : Int) (exp : Nat) (hm : exp % 2 = 0) :
    (b * b) ^ (exp / 2) = b ^ exp := by
  rw [← sq, ← pow_mul]
  congr 1
  omega

theorem pow_half_sq_odd (b : Int) (exp : Nat) (hm : exp % 2 = 1) :
    b * (b * b) ^ (exp / 2) = b ^ exp := by
  rw [← sq, ← pow_mul]
  have h1 : exp = 2 * (exp / 2) + 1 := by omega
  calc b * b ^ (2 * (exp / 2)) = b ^ (2 * (exp / 2)) * b := by ring
    _ = b ^ (2 * (exp / 2) + 1) := by rw [pow_succ]
    _ = b ^ exp := by rw [← h1]

theorem exptLoop_ok (exp : Nat) : ∀ result b r : Int,
    exptLoop exp result b = .ok r → r = result * b ^ exp := by
  induction exp using Nat.strong_induction_on with
  | _ exp ih =>
    intro result b r h
    rw [exptLoop] at h
    by_cases h0 : exp = 0
    · rw [dif_pos h0] at h
      cases h
      simp [h0]
    · rw [dif_neg h0] at h
      by_cases hc1 : exp % 2 = 1 ∧
          ¬ InIntRange (if exp % 2 = 1 then result * b else result)
      · rw [if_pos hc1] at h
        exact absurd h (by simp)
      · rw [if_neg hc1] at h
        by_cases hc2 : ¬ InIntRange (b * b) ∧ 1 < exp
        · rw [if_pos hc2] at h
          exact absurd h (by simp)
        · rw [if_neg hc2] at h
          have hr := ih (exp / 2) (Nat.div_lt_self (Nat.pos_of_ne_zero h0) (by omega))
            _ _ r h
          rcases Nat.mod_two_eq_zero_or_one exp with hm | hm
          · rw [if_neg (by omega)] at hr
            rw [hr, pow_half_sq b exp hm]
          · rw [if_pos hm] at hr
            rw [hr, mul_assoc, pow_half_sq_odd b exp hm]

theorem exptLoop_ok_range (exp : Nat) : ∀ result b r : Int, 1 ≤ exp →
    exptLoop exp result b = .ok r → InIntRange r := by
  induction exp using Nat.strong_induction_on with
  | _ exp ih =>
    intro result b r hexp h
    rw [exptLoop] at h
    rw [dif_neg (by omega)] at h
    by_cases hc1 : exp % 2 = 1 ∧
        ¬ InIntRange (if exp % 2 = 1 then result * b else result)
    · rw [if_pos hc1] at h
      exact absurd h (by simp)
    · rw [if_neg hc1] at h
      by_cases hc2 : ¬ InIntRange (b * b) ∧ 1 < exp
      · rw [if_pos hc2] at h
        exact absurd h (by simp)
      · rw [if_neg hc2] at h
        by_cases hone : exp = 1
        · subst hone
          rw [exptLoop] at h
          simp only [Nat.reduceDiv, dif_pos rfl] at h
          cases h
          have hr : InIntRange (result * b) := by
            by_contra hcon
            exact hc1 ⟨rfl, hcon⟩
          simpa using hr
        · exact ih (exp / 2) (Nat.div_lt_self (by omega) (by omega)) _ _ r
            (by omega) h

theorem exptLoop_err_msg (exp : Nat) : ∀ result b : Int, ∀ err,
    exptLoop exp result b = .error err → err = .rte "Fixnum overflow in expt" := by
  induction exp using Nat.strong_induction_on with
  | _ exp ih =>
    intro result b err h
    rw [exptLoop] at h
    by_cases h0 : exp = 0
    · rw [dif_pos h0] at h
      exact absurd h (by simp)
    · rw [dif_neg h0] at h
      by_cases hc1 : exp % 2 = 1 ∧
          ¬ InIntRange (if exp % 2 = 1 then result * b else result)
      · rw [if_pos hc1] at h
        cases h
        rfl
      · rw [if_neg hc1] at h
        by_cases hc2 : ¬ InIntRange (b * b) ∧ 1 < exp
        · rw [if_pos hc2] at h
          cases h
          rfl
        · rw [if_neg hc2] at h
          exact ih (exp / 2) (Nat.div_lt_self (Nat.pos_of_ne_zero h0) (by omega))
            _ _ err h

theorem out_of_range_mul {A p : Int} (h : ¬ InIntRange A) (hp : 1 ≤ p) :
    ¬ InIntRange (A * p) := by
  intro hcon
  obtain ⟨hl, hr⟩ := hcon
  apply h
  unfold InIntRange intMin intMax at *
  constructor
  · by_contra hA
    push_neg at hA
    have hneg : A ≤ 0 := by omega
    have : A * p ≤ A := by nlinarith
    omega
  · by_contra hA
    push_neg at hA
    have hpos : 0 ≤ A := by omega
    have : A ≤ A * p := by nlinarith
    omega

theorem out_of_range_of_abs {x : Int} (h : intMax + 2 ≤ |x|) : ¬ InIntRange x := by
  unfold InIntRange intMin intMax at *
  rcases abs_cases x with ⟨h1, _⟩ | ⟨h1, _⟩ <;> omega

theorem exptLoop_err_range (exp : Nat) : ∀ result b : Int, 1 ≤ exp →
    (result = 0 → b = 0) → ∀ err, exptLoop exp result b = .error err →
    ¬ InIntRange (result * b ^ exp) := by
  induction exp using Nat.strong_induction_on with
  | _ exp ih =>
    intro result b hexp hzero err h
    rw [exptLoop] at h
    rw [dif_neg (by omega)] at h
    by_cases hc1 : exp % 2 = 1 ∧
        ¬ InIntRange (if exp % 2 = 1 then result * b else result)
    · -- the accumulator update itself left the range
      obtain ⟨hodd, hout⟩ := hc1
      rw [if_pos hodd] at hout
      have hbne : b ≠ 0 := by
        intro hb0
        apply hout
        rw [hb0, mul_zero]
        exact ⟨by norm_num [intMin], by norm_num [intMax]⟩
      have hsplit : result * b ^ exp = (result * b) * b ^ (exp - 1) := by
        conv_lhs => rw [show exp = (exp - 1) + 1 by omega, pow_succ]
        ring
      have hp : 1 ≤ b ^ (exp - 1) := by
        have heq : b ^ (exp - 1) = (b ^ ((exp - 1) / 2)) ^ 2 := by
          rw [← pow_mul]
          congr 1
          omega
        have hne : b ^ ((exp - 1) / 2) ≠ 0 := pow_ne_zero _ hbne
        rcases lt_or_gt_of_ne hne with hlt | hgt
        · rw [heq]
          nlinarith
        · rw [heq]
          nlinarith
      rw [hsplit]
      exact out_of_range_mul hout hp
    · rw [if_neg hc1] at h
      by_cases hc2 : ¬ InIntRange (b * b) ∧ 1 < exp
      · -- the squared base left the range while more iterations remain
        obtain ⟨hb2out, hgt1⟩ := hc2
        have hb2 : intMax < b * b := by
          have hnn : 0 ≤ b * b := mul_self_nonneg b
          unfold InIntRange intMin intMax at hb2out
          unfold intMax
          push_neg at hb2out
          have := hb2out (by omega)
          omega
        have hbne : b ≠ 0 := by
          intro hb0
          rw [hb0, mul_zero] at hb2
          unfold intMax at hb2
          omega
        have hrne : result ≠ 0 := by
          intro hr0
          rw [hzero hr0, mul_zero] at hb2
          unfold intMax at hb2
          omega
        have hbabs : 46341 ≤ b.natAbs := by
          by_contra hle
          push_neg at hle
          have h1 : b.natAbs * b.natAbs ≤ 46340 * 46340 :=
            Nat.mul_le_mul (by omega) (by omega)
          have h2 : (b.natAbs : Int) * (b.natAbs : Int) = b * b :=
            Int.natAbs_mul_self
          unfold intMax at hb2
          have h3 : ((b.natAbs * b.natAbs : Nat) : Int) ≤ ((46340 * 46340 : Nat) : Int) := by
            exact_mod_cast h1
          push_cast at h3
          omega
        have habs2 : intMax + 2 ≤ |b| ^ 2 := by
          have h2 : |b| ^ 2 = b * b := by
            rw [sq_abs]
            ring
          have h4 : (46341 : Int) * 46341 ≤ (b.natAbs : Int) * (b.natAbs : Int) := by
            exact_mod_cast Nat.mul_le_mul hbabs hbabs
          have h5 : (b.natAbs : Int) * (b.natAbs : Int) = b * b :=
            Int.natAbs_mul_self
          unfold intMax
          omega
        apply out_of_range_of_abs
        rw [abs_mul, abs_pow]
        have hb1 : (1 : Int) ≤ |b| := Int.one_le_abs hbne
        have hr1 : (1 : Int) ≤ |result| := Int.one_le_abs hrne
        calc intMax + 2 ≤ |b| ^ 2 := habs2
          _ ≤ |b| ^ exp := pow_le_pow_right₀ hb1 (by omega)
          _ ≤ |result| * |b| ^ exp := le_mul_of_one_le_left (by positivity) hr1
      · rw [if_neg hc2] at h
        have hge2 : 2 ≤ exp := by
          by_contra hlt
          have h1 : exp = 1 := by omega
          subst h1
          rw [exptLoop] at h
          simp at h
        have htail := ih (exp / 2) (Nat.div_lt_self (by omega) (by omega))
          _ _ (by omega) ?_ err h
        · rcases Nat.mod_two_eq_zero_or_one exp with hm | hm
          · rw [if_neg (by omega)] at htail
            intro hcon
            apply htail
            rw [pow_half_sq b exp hm]
            exact hcon
          · rw [if_pos hm] at htail
            intro hcon
            apply htail
            have : result * b * (b * b) ^ (exp / 2) = result * b ^ exp := by
              rw [mul_assoc, pow_half_sq_odd b exp hm]
            rw [this]
            exact hcon
        · -- the zero-propagation invariant transfers to the recursive call
          intro h0
          rcases Nat.mod_two_eq_zero_or_one exp with hm | hm
          · rw [if_neg (by omega)] at h0
            rw [hzero h0, mul_zero]
          · rw [if_pos hm] at h0
            rcases mul_eq_zero.mp h0 with hr0 | hb0
            · rw [hzero hr0, mul_zero]
            · rw [hb0, mul_zero]

/-- C7: `expt` is defined only for two integer operands (anything else is
a type error); a negative exponent and `0^0` fail; otherwise the
iterative squaring loop returns the exact integer power whenever that
power fits the platform `int` range and fails with the overflow error
exactly when it does not (it never wraps). -/
theorem C7_expt_exact_overflow :
    (∀ base e : Int, e < 0 →
      exptRator (some (.fixnum base)) (some (.fixnum e))
        = .error (.rte "Negative exponent not supported for Fixnums")) ∧
    (exptRator (some (.fixnum 0)) (some (.fixnum 0))
        = .error (.rte "0^0 is undefined")) ∧
    (∀ base e : Int, 0 ≤ e → ¬(base = 0 ∧ e = 0) → InIntRange (base ^ e.toNat) →
      exptRator (some (.fixnum base)) (some (.fixnum e))
        = .ok (.fixnum (base ^ e.toNat))) ∧
    (∀ base e : Int, 0 ≤ e → ¬(base = 0 ∧ e = 0) → ¬ InIntRange (base ^ e.toNat) →
      exptRator (some (.fixnum base)) (some (.fixnum e))
        = .error (.rte "Fixnum overflow in expt")) ∧
    (∀ w1 w2 : SExpr, ¬ isFixE w1 ∨ ¬ isFixE w2 →
      exptRator (some w1) (some w2) = .error (.rte "Wrong typename")) := by
  refine ⟨?_, by rfl, ?_, ?_, ?_⟩
  · intro base e he
    rw [exptRator, if_pos he]
  · intro base e he hnz hin
    rw [exptRator, if_neg (by omega), if_neg (by tauto)]
    rcases hE : exptLoop e.toNat 1 base with err | r
    · exfalso
      by_cases h0 : e.toNat = 0
      · rw [h0, exptLoop] at hE
        simp at hE
      · have := exptLoop_err_range e.toNat 1 base (by omega)
          (fun h01 => absurd h01 one_ne_zero) err hE
        rw [one_mul] at this
        exact this hin
    · have hr := exptLoop_ok e.toNat 1 base r hE
      rw [one_mul] at hr
      subst hr
      rfl
  · intro base e he hnz hout
    rw [exptRator, if_neg (by omega), if_neg (by tauto)]
    rcases hE : exptLoop e.toNat 1 base with err | r
    · have hm := exptLoop_err_msg e.toNat 1 base err hE
      subst hm
      rfl
    · exfalso
      have hr := exptLoop_ok e.toNat 1 base r hE
      rw [one_mul] at hr
      by_cases h0 : e.toNat = 0
      · apply hout
        rw [h0, pow_zero]
        exact ⟨by norm_num [intMin], by norm_num [intMax]⟩
      · have := exptLoop_ok_range e.toNat 1 base r (by omega) hE
        rw [hr] at this
        exact hout this
  · intro w1 w2 h
    cases w1
    case fixnum a =>
      cases w2
      case fixnum b =>
        rcases h with h | h <;> exact absurd trivial h
      all_goals rfl
    all_goals rfl

/-- Witness for C7: `2^3 = 8` succeeds, `2^(-1)` and `0^0` and the
out-of-range `2^31` fail with their respective errors, and a string
operand is a type error. -/
theorem C7_expt_exact_overflow_witness :
    exptRator (some (.fixnum 2)) (some (.fixnum 3)) = .ok (.fixnum 8) ∧
    exptRator (some (.fixnum 2)) (some (.fixnum (-1)))
      = .error (.rte "Negative exponent not supported for Fixnums") ∧
    exptRator (some (.fixnum 2)) (some (.fixnum 31))
      = .error (.rte "Fixnum overflow in expt") ∧
    exptRator (some (.strE "x")) (some (.fixnum 2))
      = .error (.rte "Wrong typename") := by
  refine ⟨?_, ?_, ?_, ?_⟩
  · have h := C7_expt_exact_overflow.2.2.1 2 3 (by norm_num) (by simp)
      (by decide)
    rw [h]
    have h8 : (2 : Int) ^ Int.toNat 3 = 8 := by decide
    rw [h8]
  · exact C7_expt_exact_overflow.1 2 (-1) (by norm_num)
  · exact C7_expt_exact_overflow.2.2.2.1 2 31 (by norm_num) (by simp)
      (by decide)
  · exact C7_expt_exact_overflow.2.2.2.2 (.strE "x") (.fixnum 2)
      (Or.inl (fun hf => hf))

/-- C5: `set!` evaluates its right-hand side in the current environment
and then overwrites the nearest existing binding of the name in the
frame chain in place (the binding found first on the walk toward the
root); the update never adds a key to any frame; if no frame of the
chain binds the name, it fails with the `set!`-on-unbound error
(`UnboundAssignment`) — in particular `(set! z 1)` with `z` never
defined fails with that error. -/
theorem C5_set_overwrites_nearest_or_fails :
    (∀ (fuel : Nat) (x : String) (v : Option SExpr) (r : Option Nat) (st : Store),
      firstBound st fuel x r = none →
      modifyV st fuel x v r = .error (.rte "try to set! a non-existent var")) ∧
    (∀ (fuel : Nat) (x : String) (v : Option SExpr) (r : Option Nat) (st : Store) (j : Nat),
      firstBound st fuel x r = some j →
      ∃ fr, st.get? j = some fr ∧ bindLookup x fr.bindings ≠ none ∧
        modifyV st fuel x v r
          = .ok (st.set j { fr with bindings := bindUpdate x v fr.bindings })) ∧
    (∀ (x : String) (v : Option SExpr) (l : List (String × Option SExpr)),
      bindLookup x l ≠ none → (bindUpdate x v l).map Prod.fst = l.map Prod.fst) ∧
    (∀ (fuel : Nat) (v : String) (ex : SExpr) (env : Nat) (st : Store),
      evalE (fuel + 1) (.setE v ex) env st
        = do
            let (val, st1) ← evalE fuel ex env st
            let st2 ← modifyV st1 st1.length v val (some env)
            .ok (none, st2)) ∧
    runProgram 5 [.slist [.var "set!", .var "z", .fixnum 1]]
      = .error (.rte "try to set! a non-existent var") := by
  refine ⟨?_, ?_, ?_, fun fuel v ex env st => rfl, by rfl⟩
  · intro fuel
    induction fuel with
    | zero => intro x v r st _; rfl
    | succ fuel ih =>
      intro x v r st h
      cases r with
      | none => rfl
      | some i =>
        rcases hg : st.get? i with _ | fr
        · rw [modifyV]
          simp only [hg]
        · rcases hb : bindLookup x fr.bindings with _ | w
          · simp only [firstBound, hg, hb] at h
            rw [modifyV]
            simp only [hg, hb]
            exact ih x v fr.parent st h
          · simp only [firstBound, hg, hb] at h
            exact absurd h (by simp)
  · intro fuel
    induction fuel with
    | zero => intro x v r st j h; exact absurd h (by rw [firstBound]; simp)
    | succ fuel ih =>
      intro x v r st j h
      cases r with
      | none => exact absurd h (by rw [firstBound]; simp)
      | some i =>
        rcases hg : st.get? i with _ | fr
        · rw [firstBound] at h
          simp only [hg] at h
          exact absurd h (by simp)
        · rcases hb : bindLookup x fr.bindings with _ | w
          · simp only [firstBound, hg, hb] at h
            rw [modifyV]
            simp only [hg, hb]
            exact ih x v fr.parent st j h
          · simp only [firstBound, hg, hb, Option.some.injEq] at h
            subst h
            refine ⟨fr, hg, by rw [hb]; simp, ?_⟩
            rw [modifyV]
            simp only [hg, hb]
  · intro x v l h
    induction l with
    | nil => exact absurd rfl (by rwa [bindLookup] at h)
    | cons kv rest ih =>
      rw [bindLookup] at h
      rw [bindUpdate]
      by_cases hk : kv.1 = x
      · rw [if_pos hk] at h ⊢
        simp [hk]
      · rw [if_neg hk] at h ⊢
        simp only [List.map_cons]
        rw [ih h]

/-- Witness for C5: overwriting `z` in a one-frame store that binds it,
and failing on a store whose only frame does not bind `q`. -/
theorem C5_set_overwrites_nearest_or_fails_witness :
    (∃ fr, ([⟨[("z", some (.fixnum 0))], none⟩] : Store).get? 0 = some fr ∧
      bindLookup "z" fr.bindings ≠ none ∧
      modifyV [⟨[("z", some (.fixnum 0))], none⟩] 1 "z" (some (.fixnum 1)) (some 0)
        = .ok (([⟨[("z", some (.fixnum 0))], none⟩] : Store).set 0
            { bindings := bindUpdate "z" (some (.fixnum 1)) [("z", some (.fixnum 0))],
              parent := none })) ∧
    modifyV [(⟨[], none⟩ : Frame)] 1 "q" (some (.fixnum 1)) (some 0)
      = .error (.rte "try to set! a non-existent var") := by
  constructor
  · obtain ⟨fr, hget, hne, hmod⟩ := C5_set_overwrites_nearest_or_fails.2.1 1 "z"
      (some (.fixnum 1)) (some 0) [⟨[("z", some (.fixnum 0))], none⟩] 0 rfl
    have hfr : fr = ⟨[("z", some (.fixnum 0))], none⟩ := by
      have : some fr = some (⟨[("z", some (.fixnum 0))], none⟩ : Frame) := by
        rw [← hget]
        rfl
      cases this
      rfl
    subst hfr
    exact ⟨_, hget, hne, hmod⟩
  · exact C5_set_overwrites_nearest_or_fails.1 1 "q" (some (.fixnum 1)) (some 0)
      [⟨[], none⟩] rfl

/-- C4: `and`/`or` evaluate operands left-to-right with short-circuiting.
Empty `and` is `#t` and empty `or` is `#f`; when the first operand
evaluates to a falsy value, `and` returns that value immediately — the
remaining operand expressions (arbitrary, even ill-formed ones) are
never evaluated — and symmetrically `or` returns the first truthy value;
otherwise the loop continues carrying the value just computed, and the
carried value is returned when the operands run out (the last value).
End-to-end, `(or #f #f 7)` gives `7` and `(and 1 2 #f 3)` gives `#f`;
replacing the `3` by an unbound variable still gives `#f`, showing it is
not evaluated. -/
theorem C4_and_or_short_circuit :
    (∀ (fuel env : Nat) (st : Store),
      evalE (fuel + 1) (.andE []) env st = .ok (some (.boolE true), st)) ∧
    (∀ (fuel env : Nat) (st : Store),
      evalE (fuel + 1) (.orE []) env st = .ok (some (.boolE false), st)) ∧
    (∀ (fuel env : Nat) (st : Store) (x : SExpr) (xs : List SExpr) v st1,
      evalE fuel x env st = .ok (v, st1) → is_false v = true →
      evalE (fuel + 1) (.andE (x :: xs)) env st = .ok (v, st1)) ∧
    (∀ (fuel env : Nat) (st : Store) (x : SExpr) (xs : List SExpr) v st1,
      evalE fuel x env st = .ok (v, st1) → is_true v = true →
      evalE (fuel + 1) (.andE (x :: xs)) env st
        = andLoopWith (evalE fuel) v xs env st1) ∧
    (∀ (recur : Recur) (last : Option SExpr) (env : Nat) (st : Store),
      andLoopWith recur last [] env st = .ok (last, st)) ∧
    (∀ (fuel env : Nat) (st : Store) (x : SExpr) (xs : List SExpr) v st1,
      evalE fuel x env st = .ok (v, st1) → is_true v = true →
      evalE (fuel + 1) (.orE (x :: xs)) env st = .ok (v, st1)) ∧
    (∀ (fuel env : Nat) (st : Store) (x : SExpr) (xs : List SExpr) v st1,
      evalE fuel x env st = .ok (v, st1) → is_false v = true →
      evalE (fuel + 1) (.orE (x :: xs)) env st
        = orLoopWith (evalE fuel) v xs env st1) ∧
    (∀ (recur : Recur) (last : Option SExpr) (env : Nat) (st : Store),
      orLoopWith recur last [] env st = .ok (last, st)) ∧
    runProgram 5 [.slist [.var "or", .boolE false, .boolE false, .fixnum 7]]
      = .ok (some (.fixnum 7)) ∧
    runProgram 5 [.slist [.var "and", .fixnum 1, .fixnum 2, .boolE false, .fixnum 3]]
      = .ok (some (.boolE false)) ∧
    runProgram 5 [.slist [.var "and", .fixnum 1, .fixnum 2, .boolE false, .var "zz"]]
      = .ok (some (.boolE false)) := by
  refine ⟨fun fuel env st => rfl, fun fuel env st => rfl, ?_, ?_,
    fun recur last env st => rfl, ?_, ?_,
    fun recur last env st => rfl, by rfl, by rfl, by rfl⟩
  · intro fuel env st x xs v st1 hx hfalse
    have hstep : evalE (fuel + 1) (.andE (x :: xs)) env st
        = andLoopWith (evalE fuel) (some (.boolE true)) (x :: xs) env st := rfl
    rw [hstep, andLoopWith, hx]
    simp [bind, Except.bind, hfalse]
  · intro fuel env st x xs v st1 hx htrue
    have hstep : evalE (fuel + 1) (.andE (x :: xs)) env st
        = andLoopWith (evalE fuel) (some (.boolE true)) (x :: xs) env st := rfl
    rw [hstep, andLoopWith, hx]
    have hfalse : is_false v = false := by
      rw [is_true] at htrue
      cases h : is_false v
      · rfl
      · rw [h] at htrue
        exact absurd htrue (by simp)
    simp [bind, Except.bind, hfalse]
  · intro fuel env st x xs v st1 hx htrue
    have hstep : evalE (fuel + 1) (.orE (x :: xs)) env st
        = orLoopWith (evalE fuel) (some (.boolE false)) (x :: xs) env st := rfl
    rw [hstep, orLoopWith, hx]
    simp [bind, Except.bind, htrue]
  · intro fuel env st x xs v st1 hx hfalse
    have hstep : evalE (fuel + 1) (.orE (x :: xs)) env st
        = orLoopWith (evalE fuel) (some (.boolE false)) (x :: xs) env st := rfl
    rw [hstep, orLoopWith, hx]
    have htrue : is_true v = false := by
      rw [is_true, hfalse]
      rfl
    simp [bind, Except.bind, htrue]

/-- Witness for C4: the `and` short-circuit applied where the first
operand is `#f` and the rest is an unbound variable, and the `or`
short-circuit applied where the first operand is `7`. -/
theorem C4_and_or_short_circuit_witness :
    evalE 2 (.andE [.boolE false, .var "zz"]) 0 globalStore
      = .ok (some (.boolE false), globalStore) ∧
    evalE 2 (.orE [.fixnum 7, .var "zz"]) 0 globalStore
      = .ok (some (.fixnum 7), globalStore) := by
  constructor
  · exact C4_and_or_short_circuit.2.2.1 1 0 globalStore (.boolE false) [.var "zz"]
      (some (.boolE false)) globalStore rfl rfl
  · exact C4_and_or_short_circuit.2.2.2.2.2.1 1 0 globalStore (.fixnum 7) [.var "zz"]
      (some (.fixnum 7)) globalStore rfl rfl

theorem bindLookup_bindUpdate_self (x : String) (v : Option SExpr)
    (l : List (String × Option SExpr)) :
    bindLookup x (bindUpdate x v l) = some v := by
  induction l with
  | nil => simp [bindUpdate, bindLookup]
  | cons kv rest ih =>
    rw [bindUpdate]
    by_cases hk : kv.1 = x
    · rw [if_pos hk, bindLookup, if_pos hk]
    · rw [if_neg hk, bindLookup, if_neg hk]
      exact ih

/-- The parsed form of
`(define (fact n) (if (= n 0) 1 (* n (fact (- n 1)))))` followed by
`(fact 5)`, exactly as the `SList`-based evaluator receives it. -/
def factProgram : List SExpr :=
  [.slist [.var "define", .slist [.var "fact", .var "n"],
     .slist [.var "if", .slist [.var "=", .var "n", .fixnum 0],
       .fixnum 1,
       .slist [.var "*", .var "n",
         .slist [.var "fact", .slist [.var "-", .var "n", .fixnum 1]]]]],
   .slist [.var "fact", .fixnum 5]]

/-- C1: evaluating a function definition binds the name in the current
frame to a closure whose captured environment is that very frame (the
recursive knot), so that looking the name up through the closure's
captured frame resolves to the closure itself; and the `fact` example
evaluates end-to-end to 120, exercising the recursive self-reference. -/
theorem C1_define_f_ties_recursive_knot :
    (∀ (fuel : Nat) (v : String) (params : List String) (es : List SExpr)
        (env : Nat) (st : Store),
      evalE (fuel + 1) (.defineF v params es) env st
        = .ok (none, add_bind v (some (.procV params (.beginE es) env)) env st)) ∧
    (∀ (v : String) (params : List String) (es : List SExpr) (st : Store)
        (fr : Frame) (envId : Nat), st.get? envId = some fr →
      findV (add_bind v (some (.procV params (.beginE es) envId)) envId st)
          (add_bind v (some (.procV params (.beginE es) envId)) envId st).length
          v (some envId)
        = some (some (.procV params (.beginE es) envId))) ∧
    runProgram 60 factProgram = .ok (some (.fixnum 120)) := by
  refine ⟨fun fuel v params es env st => rfl, ?_, by rfl⟩
  intro v params es st fr envId hget
  have hlt : envId < st.length := by
    by_contra hge
    push_neg at hge
    rw [List.get?_eq_none.mpr hge] at hget
    cases hget
  rw [add_bind, hget]
  have hlen : (st.set envId
      { fr with bindings :=
          (bindUpdate v (some (.procV params (.beginE es) envId)) fr.bindings) }).length
      = st.length := by
    rw [List.length_set]
  rw [hlen]
  obtain ⟨k, hk⟩ : ∃ k, st.length = k + 1 := ⟨st.length - 1, by omega⟩
  rw [hk, findV]
  have hset : (st.set envId
      { fr with bindings :=
          (bindUpdate v (some (.procV params (.beginE es) envId)) fr.bindings) }).get? envId
      = some { fr with bindings :=
          (bindUpdate v (some (.procV params (.beginE es) envId)) fr.bindings) } := by
    rw [List.get?_set_eq, hget]
    rfl
  simp only [hset, bindLookup_bindUpdate_self]

/-- Witness for C1: the lookup-resolves-to-the-closure conjunct applied
in a one-frame store. -/
theorem C1_define_f_ties_recursive_knot_witness :
    findV (add_bind "f" (some (.procV [] (.beginE []) 0)) 0 [⟨[], none⟩])
        (add_bind "f" (some (.procV [] (.beginE []) 0)) 0
          [(⟨[], none⟩ : Frame)]).length
        "f" (some 0)
      = some (some (.procV [] (.beginE []) 0)) :=
  C1_define_f_ties_recursive_knot.2.1 "f" [] [] [⟨[], none⟩] ⟨[], none⟩ 0 rfl

/-- The parsed form of `(let ((x 1)) (let ((y (+ x 1))) y))`. -/
def letNestedProgram : SExpr :=
  .slist [.var "let", .slist [.slist [.var "x", .fixnum 1]],
    .slist [.var "let",
      .slist [.slist [.var "y", .slist [.var "+", .var "x", .fixnum 1]]],
      .var "y"]]

/-- The parsed form of
`(letrec ((f (lambda () (g))) (g (lambda () 5))) (f))`. -/
def letrecMutualProgram : SExpr :=
  .slist [.var "letrec",
    .slist [.slist [.var "f", .slist [.var "lambda", .slist [], .slist [.var "g"]]],
            .slist [.var "g", .slist [.var "lambda", .slist [], .fixnum 5]]],
    .slist [.var "f"]]

/-- The same form with `let` in place of `letrec`. -/
def letMutualProgram : SExpr :=
  .slist [.var "let",
    .slist [.slist [.var "f", .slist [.var "lambda", .slist [], .slist [.var "g"]]],
            .slist [.var "g", .slist [.var "lambda", .slist [], .fixnum 5]]],
    .slist [.var "f"]]

/-- C2: `let` evaluates every binding initializer in the outer
environment while `letrec` evaluates every initializer in the freshly
created frame — the two evaluations share the same binding loop and
differ exactly in the environment passed to the initializers; the loop
evaluates initializers left-to-right, binding each result into the new
frame.  Consequently `(let ((x 1)) (let ((y (+ x 1))) y))` gives `2`,
the lambda-mediated mutual reference succeeds via `letrec` (giving `5`),
and the same form via `let` fails with the unbound-variable error. -/
theorem C2_let_letrec_initializer_environments :
    (∀ (fuel : Nat) (bind : List (String × SExpr)) (body : List SExpr)
        (env : Nat) (st : Store),
      evalE (fuel + 1) (.letE bind body) env st
        = do
            let st1 ← evalBindsWith (evalE fuel) env st.length bind
              (st ++ [⟨[], some env⟩])
            evalE fuel (.beginE body) st.length st1) ∧
    (∀ (fuel : Nat) (bind : List (String × SExpr)) (body : List SExpr)
        (env : Nat) (st : Store),
      evalE (fuel + 1) (.letrecE bind body) env st
        = do
            let st1 ← evalBindsWith (evalE fuel) st.length st.length bind
              (st ++ [⟨[], some env⟩])
            evalE fuel (.beginE body) st.length st1) ∧
    (∀ (recur : Recur) (initEnv bindEnv : Nat) (x : String) (ex : SExpr)
        (rest : List (String × SExpr)) (st : Store),
      evalBindsWith recur initEnv bindEnv ((x, ex) :: rest) st
        = do
            let (v, st1) ← recur ex initEnv st
            evalBindsWith recur initEnv bindEnv rest (add_bind x v bindEnv st1)) ∧
    runProgram 10 [letNestedProgram] = .ok (some (.fixnum 2)) ∧
    runProgram 10 [letrecMutualProgram] = .ok (some (.fixnum 5)) ∧
    runProgram 10 [letMutualProgram] = .error (.rte "undefined variable") :=
  ⟨fun fuel bind body env st => rfl, fun fuel bind body env st => rfl,
   fun recur initEnv bindEnv x ex rest st => rfl, rfl, rfl, rfl⟩

/-- Counterexample for C9: the claim says binding an invalid name fails
with `InvalidVariableName`, but `Define::eval` binds through the
unchecked `add_bind`, so defining the invalid name `@x` succeeds. -/
theorem C9_invalid_name_binding_succeeds_counterexample :
    evalE 2 (.defineE "@x" (.fixnum 1)) 0 [⟨[], none⟩]
      = .ok (none, [⟨[("@x", some (.fixnum 1))], none⟩]) ∧
    is_valid_var "@x" = false := ⟨rfl, rfl⟩

/-- C9 (amended): the identifier-validity rule — non-empty, first
character not a digit and not `.` or `@`, no character whitespace or one
of `#`, single quote, double quote, backtick — is implemented by
`is_valid_var` and enforced by `safe_add_bind`/`safe_modify`, which fail
with the invalid-name error on an invalid name; but the evaluator's
binding sites (`define` shown here, and likewise function-define,
`let`/`letrec` and call frames) bind through the unchecked `add_bind`,
so binding an invalid name succeeds instead of failing. -/
theorem C9_validity_rule_defined_but_unenforced :
    (∀ s : String, is_valid_var s = true ↔
      s.data ≠ [] ∧
      (∀ c0 ∈ s.data.head?,
        ¬(Char.ofNat 48 ≤ c0 ∧ c0 ≤ Char.ofNat 57) ∧ c0 ≠ '@' ∧ c0 ≠ '.') ∧
      (∀ c ∈ s.data, cppIsSpace c = false ∧ c ≠ '#' ∧
        c ≠ Char.ofNat 39 ∧ c ≠ Char.ofNat 34 ∧ c ≠ Char.ofNat 96)) ∧
    (∀ (x : String) (v : Option SExpr) (envId : Nat) (st : Store),
      is_valid_var x = false →
      safe_add_bind x v envId st = .error (.rte "not a valid variable name!")) ∧
    (∀ (x : String) (v : Option SExpr) (envId : Nat) (st : Store),
      is_valid_var x = true →
      safe_add_bind x v envId st = .ok (add_bind x v envId st)) ∧
    (∀ (fuel : Nat) (name : String) (ex : SExpr) (env : Nat) (st : Store),
      evalE (fuel + 1) (.defineE name ex) env st
        = do
            let (val, st1) ← evalE fuel ex env st
            .ok (none, add_bind name val env st1)) ∧
    runProgram 5 [.slist [.var "define", .var "@x", .fixnum 1]] = .ok none := by
  refine ⟨?_, ?_, ?_, fun fuel name ex env st => rfl, by rfl⟩
  · intro s
    rcases hd : s.data with _ | ⟨c0, rest⟩
    · simp [is_valid_var, hd]
    · simp only [is_valid_var, hd]
      by_cases hP : (Char.ofNat 48 ≤ c0 && c0 ≤ Char.ofNat 57) || c0 = '@' || c0 = '.'
      · simp only [hP, if_true]
        simp only [Bool.or_eq_true, Bool.and_eq_true, decide_eq_true_eq] at hP
        constructor
        · intro hfalse
          cases hfalse
        · intro ⟨_, hhead, _⟩
          have := hhead c0 (by simp)
          tauto
      · rw [if_neg hP]
        simp only [Bool.or_eq_true, Bool.and_eq_true, decide_eq_true_eq] at hP
        constructor
        · intro hall
          refine ⟨by simp, ?_, ?_⟩
          · intro c0' hc0'
            simp only [List.head?_cons, Option.mem_def, Option.some.injEq] at hc0'
            subst hc0'
            tauto
          · intro c hc
            have := List.all_eq_true.mp hall c hc
            simp only [Bool.not_eq_true', Bool.or_eq_false_iff,
              decide_eq_false_iff_not] at this
            tauto
        · intro ⟨_, _, hchars⟩
          rw [List.all_eq_true]
          intro c hc
          have := hchars c hc
          simp only [Bool.not_eq_true', Bool.or_eq_false_iff,
            decide_eq_false_iff_not]
          tauto
  · intro x v envId st h
    rw [safe_add_bind, h]
    rfl
  · intro x v envId st h
    rw [safe_add_bind, h]
    rfl

/-- Witness for the amended C9: `safe_add_bind` rejects the invalid name
`@x` and accepts the valid name `x`. -/
theorem C9_validity_rule_defined_but_unenforced_witness :
    safe_add_bind "@x" (some (.fixnum 1)) 0 [⟨[], none⟩]
      = .error (.rte "not a valid variable name!") ∧
    safe_add_bind "x" (some (.fixnum 1)) 0 [⟨[], none⟩]
      = .ok (add_bind "x" (some (.fixnum 1)) 0 [⟨[], none⟩]) :=
  ⟨C9_validity_rule_defined_but_unenforced.2.1 "@x" (some (.fixnum 1)) 0
      [⟨[], none⟩] rfl,
   C9_validity_rule_defined_but_unenforced.2.2.1 "x" (some (.fixnum 1)) 0
      [⟨[], none⟩] rfl⟩

/-- Generic syntax tree consumed by the quoting path (`struct Syntax`
variants: Number, RationalSyntax, SymbolSyntax, StringSyntax,
TrueSyntax/FalseSyntax, List). -/
inductive Stx where
  | num (n : Int)
  | ratS (num den : Int)
  | sym (s : String)
  | strS (s : String)
  | boolS (b : Bool)
  | listS (xs : List Stx)

/-- Quoted datum values: the literal data produced under `quote`
(`Quoted_Symbol`/literal nodes and the pair cells built by the
right-fold of `q_parse`, after the `Cons` cells evaluate). -/
inductive QVal where
  | numQ (n : Int)
  | ratQ (num den : Int)
  | symQ (s : String)
  | strQ (s : String)
  | boolQ (b : Bool)
  | nullQ
  | pairQ (car cdr : QVal)

mutual

/-- `q_parse` (parser.cpp / the final snapshot's `Quoted`): symbols
become literal-symbol data; a list whose second-to-last element is the
symbol `.` right-folds its other elements onto the quoted final element
(a dotted pair); any other list right-folds onto the empty list.  The
dotted check only applies to lists of length at least 3, so the
recursion below treats the final two elements specially exactly there;
atoms map to their literal data (`RationalSyntax` runs the normalising
`RationalNum` constructor). -/
def q_parse : Stx → QVal
  | .num n => .numQ n
  | .ratS n d => .ratQ (ratNormalize n d).1 (ratNormalize n d).2
  | .sym s => .symQ s
  | .strS s => .strQ s
  | .boolS b => .boolQ b
  | .listS [] => .nullQ
  | .listS [a] => .pairQ (q_parse a) .nullQ
  | .listS [a, b] => .pairQ (q_parse a) (.pairQ (q_parse b) .nullQ)
  | .listS (a :: b :: c :: rest) => .pairQ (q_parse a) (q_tail (b :: c :: rest))

/-- Continuation of `q_parse` over the tail of a list of length ≥ 3:
when exactly the final two elements remain and the first of them is the
symbol `.`, the quoted final element becomes the tail. -/
def q_tail : List Stx → QVal
  | [] => .nullQ
  | [z] => .pairQ (q_parse z) .nullQ
  | [d, z] =>
    match d with
    | .sym s =>
      if s = "." then q_parse z
      else .pairQ (.symQ s) (.pairQ (q_parse z) .nullQ)
    | _ => .pairQ (q_parse d) (.pairQ (q_parse z) .nullQ)
  | x :: rest => .pairQ (q_parse x) (q_tail rest)

end

/-- Rendering of the non-pair literal nodes (`Fixnum::show`,
`RationalNum::show`, `Var::show`, `StringExpr::show`, `Boolean::show`,
`NullExpr::show`); factored out so that the mutual pair renderer below
stays structurally recursive. -/
def showAtom : QVal → String
  | .numQ n => toString n
  | .ratQ n d => if d = 1 then toString n else toString n ++ "/" ++ toString d
  | .symQ s => s
  | .strQ s => "\"" ++ s ++ "\""
  | .boolQ b => if b then "#t" else "#f"
  | .nullQ => "()"
  | .pairQ _ _ => ""

mutual

/-- Canonical `show` rendering of quoted data (`Pair::show` plus the
literal `show` methods). -/
def showVal : QVal → String
  | .pairQ a b => "(" ++ showVal a ++ showCdr b
  | v => showAtom v

/-- The `showCdr` protocol: `NullExpr::showCdr` closes the parenthesis,
`Pair::showCdr` continues the flattened list, and the default
`ExprBase::showCdr` prints the dotted tail. -/
def showCdr : QVal → String
  | .nullQ => ")"
  | .pairQ a b => " " ++ showVal a ++ showCdr b
  | v => " . " ++ showAtom v ++ ")"

end

/-- `Display::evalRator`: strings print raw, everything else through
`show`. -/
def displayString : QVal → String
  | .strQ s => s
  | v => showVal v

mutual

/-- Source text of a syntax tree in the reader's notation (numbers and
rationals as written, strings quoted, lists parenthesised and
space-separated). -/
def stxShow : Stx → String
  | .num n => toString n
  | .ratS n d => toString n ++ "/" ++ toString d
  | .sym s => s
  | .strS s => "\"" ++ s ++ "\""
  | .boolS b => if b then "#t" else "#f"
  | .listS xs => "(" ++ stxShowList xs ++ ")"

/-- Space-separated rendering of list elements. -/
def stxShowList : List Stx → String
  | [] => ""
  | [x] => stxShow x
  | x :: rest => stxShow x ++ " " ++ stxShowList rest

end

/-- A canonical dotted tail: a non-list canonical atom (a list there
would be flattened by `show`, losing the dotted notation). -/
def dispAtom : Stx → Bool
  | .num _ => true
  | .ratS n d => decide ((1 : Int) < d) && decide (Nat.gcd n.natAbs d.natAbs = 1)
  | .sym s => decide (s ≠ ".")
  | .strS _ => true
  | .boolS _ => true
  | .listS _ => false

mutual

/-- Display-canonical syntax: quoted data of such syntax prints back as
the original text.  Rationals must be reduced with denominator > 1 (the
constructor normalises and the printer collapses denominator 1), a bare
`.` symbol only serves as the dotted-pair marker, and a dotted tail must
be a non-list atom (a list tail would be flattened by `show`). -/
def dispCanon : Stx → Bool
  | .num _ => true
  | .ratS n d => decide ((1 : Int) < d) && decide (Nat.gcd n.natAbs d.natAbs = 1)
  | .sym s => decide (s ≠ ".")
  | .strS _ => true
  | .boolS _ => true
  | .listS [] => true
  | .listS [a] => dispCanon a
  | .listS [a, b] => dispCanon a && dispCanon b
  | .listS (a :: b :: c :: rest) => dispCanon a && dispCanonTail (b :: c :: rest)

/-- Canonicity of the final segment of a list of length ≥ 3, mirroring
`q_tail`'s treatment of the dotted position. -/
def dispCanonTail : List Stx → Bool
  | [] => true
  | [z] => dispCanon z
  | [d, z] =>
    match d with
    | .sym s => if s = "." then dispAtom z else dispCanon d && dispCanon z
    | _ => dispCanon d && dispCanon z
  | x :: rest => dispCanon x && dispCanonTail rest

end

theorem strAssoc (a b c : String) : (a ++ b) ++ c = a ++ (b ++ c) := by
  rcases a with ⟨da⟩
  rcases b with ⟨db⟩
  rcases c with ⟨dc⟩
  show String.mk ((da ++ db) ++ dc) = String.mk (da ++ (db ++ dc))
  rw [List.append_assoc]

theorem ratNormalize_reduced (n d : Int) (hd : 0 < d)
    (hg : Nat.gcd n.natAbs d.natAbs = 1) : ratNormalize n d = (n, d) := by
  unfold ratNormalize
  rw [cppGcd_eq_gcd, hg]
  simp only [Nat.cast_one, Int.tdiv_one]
  rw [if_neg (by omega)]

theorem dispAtom_canon (z : Stx) (h : dispAtom z = true) : dispCanon z = true := by
  cases z <;> first | rfl | exact h | cases h

theorem showCdr_atom (z : Stx) (h : dispAtom z = true) :
    showCdr (q_parse z) = " . " ++ showVal (q_parse z) ++ ")" := by
  cases z <;> first | rfl | cases h

theorem q_tail_cons (a : Stx) (l : List Stx) (h : 2 ≤ l.length) :
    q_tail (a :: l) = .pairQ (q_parse a) (q_tail l) := by
  match l with
  | b :: c :: rest => rfl

theorem q_parse_listS_cons (a : Stx) (l : List Stx) (h : 2 ≤ l.length) :
    q_parse (.listS (a :: l)) = .pairQ (q_parse a) (q_tail l) := by
  match l with
  | b :: c :: rest => rfl

theorem q_tail_append_dot (ys : List Stx) (z : Stx) :
    q_tail (ys ++ [.sym ".", z])
      = ys.foldr (fun x t => .pairQ (q_parse x) t) (q_parse z) := by
  induction ys with
  | nil => simp [q_tail]
  | cons a ys ih =>
    rw [List.cons_append, q_tail_cons a (ys ++ [.sym ".", z]) (by simp),
      ih, List.foldr_cons]

theorem q_tail_nondot (l : List Stx)
    (h : ∀ (ys : List Stx) (z : Stx), l ≠ ys ++ [.sym ".", z]) :
    q_tail l = l.foldr (fun x t => .pairQ (q_parse x) t) .nullQ := by
  match l with
  | [] => rfl
  | [z] => rfl
  | [d, z] =>
    have hd : d ≠ .sym "." := by
      intro he
      exact h [] z (by rw [he]; rfl)
    match d with
    | .num n => rfl
    | .ratS n dd => rfl
    | .sym s =>
      have hs : s ≠ "." := by
        intro he
        exact hd (by rw [he])
      simp [q_tail, hs, q_parse]
    | .strS s => rfl
    | .boolS b => rfl
    | .listS xs => rfl
  | x :: y :: w :: rest =>
    have htail : ∀ (ys : List Stx) (z : Stx), y :: w :: rest ≠ ys ++ [.sym ".", z] := by
      intro ys z he
      exact h (x :: ys) z (by rw [List.cons_append, he])
    rw [q_tail_cons x (y :: w :: rest) (by simp),
      q_tail_nondot (y :: w :: rest) htail]
    rfl

mutual

theorem q_parse_show : (s : Stx) → dispCanon s = true → showVal (q_parse s) = stxShow s
  | .num n, _ => rfl
  | .ratS n d, h => by
    have hh : (1 : Int) < d ∧ Nat.gcd n.natAbs d.natAbs = 1 := by
      simpa [dispCanon, Bool.and_eq_true, decide_eq_true_eq] using h
    have hq : q_parse (.ratS n d) = .ratQ n d := by
      simp [q_parse, ratNormalize_reduced n d (by omega) hh.2]
    rw [hq]
    show showAtom (.ratQ n d) = _
    simp only [showAtom, stxShow]
    rw [if_neg (by omega : ¬ d = 1)]
  | .sym s, _ => rfl
  | .strS s, _ => rfl
  | .boolS b, _ => rfl
  | .listS [], _ => rfl
  | .listS [a], h => by
    have ha : dispCanon a = true := by simpa [dispCanon] using h
    simp only [q_parse, showVal, showCdr, stxShow, stxShowList]
    rw [q_parse_show a ha]
  | .listS [a, b], h => by
    have hh : dispCanon a = true ∧ dispCanon b = true := by
      simpa [dispCanon, Bool.and_eq_true] using h
    simp only [q_parse, showVal, showCdr, stxShow, stxShowList]
    rw [q_parse_show a hh.1, q_parse_show b hh.2]
    simp [strAssoc]
  | .listS (a :: b :: c :: rest), h => by
    have hh : dispCanon a = true ∧ dispCanonTail (b :: c :: rest) = true := by
      simpa [dispCanon, Bool.and_eq_true] using h
    simp only [q_parse, showVal, stxShow]
    rw [q_parse_show a hh.1, q_tail_show (b :: c :: rest) (by simp) hh.2]
    simp [stxShowList, strAssoc]
termination_by s _ => sizeOf s

theorem q_tail_show : (l : List Stx) → l ≠ [] → dispCanonTail l = true →
    showCdr (q_tail l) = " " ++ stxShowList l ++ ")"
  | [z], _, h => by
    have hz : dispCanon z = true := by simpa [dispCanonTail] using h
    simp only [q_tail, showCdr, stxShowList]
    rw [q_parse_show z hz]
  | [.num n, z], _, h => by
    have hh : dispCanon (.num n) = true ∧ dispCanon z = true := by
      simpa [dispCanonTail, Bool.and_eq_true] using h
    simp only [q_tail, showCdr]
    rw [q_parse_show (.num n) hh.1, q_parse_show z hh.2]
    simp [stxShowList, strAssoc]
  | [.ratS n d, z], _, h => by
    have hh : dispCanon (.ratS n d) = true ∧ dispCanon z = true := by
      simpa [dispCanonTail, Bool.and_eq_true] using h
    simp only [q_tail, showCdr]
    rw [q_parse_show (.ratS n d) hh.1, q_parse_show z hh.2]
    simp [stxShowList, strAssoc]
  | [.strS s, z], _, h => by
    have hh : dispCanon (.strS s) = true ∧ dispCanon z = true := by
      simpa [dispCanonTail, Bool.and_eq_true] using h
    simp only [q_tail, showCdr]
    rw [q_parse_show (.strS s) hh.1, q_parse_show z hh.2]
    simp [stxShowList, strAssoc]
  | [.boolS b, z], _, h => by
    have hh : dispCanon (.boolS b) = true ∧ dispCanon z = true := by
      simpa [dispCanonTail, Bool.and_eq_true] using h
    simp only [q_tail, showCdr]
    rw [q_parse_show (.boolS b) hh.1, q_parse_show z hh.2]
    simp [stxShowList, strAssoc]
  | [.listS xs, z], _, h => by
    have hh : dispCanon (.listS xs) = true ∧ dispCanon z = true := by
      simpa [dispCanonTail, Bool.and_eq_true] using h
    simp only [q_tail, showCdr]
    rw [q_parse_show (.listS xs) hh.1, q_parse_show z hh.2]
    simp [stxShowList, strAssoc]
  | [.sym s, z], _, h => by
    by_cases hdot : s = "."
    · subst hdot
      have hz : dispAtom z = true := by simpa [dispCanonTail] using h
      have hq : q_tail [.sym ".", z] = q_parse z := by simp [q_tail]
      rw [hq, showCdr_atom z hz, q_parse_show z (dispAtom_canon z hz)]
      simp only [stxShowList, stxShow]
      rfl
    · have hh : dispCanon (.sym s) = true ∧ dispCanon z = true := by
        simpa [dispCanonTail, hdot, Bool.and_eq_true] using h
      have hq : q_tail [.sym s, z] = .pairQ (.symQ s) (.pairQ (q_parse z) .nullQ) := by
        simp [q_tail, hdot]
      rw [hq]
      simp only [showCdr]
      rw [q_parse_show z hh.2]
      simp [showVal, showAtom, stxShowList, stxShow, strAssoc]
  | x :: y :: w :: rest, _, h => by
    have hh : dispCanon x = true ∧ dispCanonTail (y :: w :: rest) = true := by
      simpa [dispCanonTail, Bool.and_eq_true] using h
    rw [q_tail_cons x (y :: w :: rest) (by simp)]
    simp only [showCdr]
    rw [q_parse_show x hh.1, q_tail_show (y :: w :: rest) (by simp) hh.2]
    simp [stxShowList, strAssoc]
termination_by l _ _ => sizeOf l

end

theorem q_parse_dotted (a : Stx) (ys : List Stx) (z : Stx) :
    q_parse (.listS (a :: ys ++ [.sym ".", z]))
      = (a :: ys).foldr (fun x t => .pairQ (q_parse x) t) (q_parse z) := by
  rw [List.cons_append, q_parse_listS_cons a (ys ++ [.sym ".", z]) (by simp),
    q_tail_append_dot, List.foldr_cons]

theorem q_parse_plain (xs : List Stx)
    (h : ∀ (ys : List Stx) (z : Stx), xs = ys ++ [.sym ".", z] → ys = []) :
    q_parse (.listS xs) = xs.foldr (fun x t => .pairQ (q_parse x) t) .nullQ := by
  match xs with
  | [] => rfl
  | [a] => rfl
  | [a, b] => rfl
  | a :: b :: c :: rest =>
    have htail : ∀ (ys : List Stx) (z : Stx), b :: c :: rest ≠ ys ++ [.sym ".", z] := by
      intro ys z he
      exact absurd (h (a :: ys) z (by rw [List.cons_append, he])) (by simp)
    rw [q_parse_listS_cons a (b :: c :: rest) (by simp),
      q_tail_nondot (b :: c :: rest) htail]
    rfl

theorem displayString_q_parse_listS (xs : List Stx) :
    displayString (q_parse (.listS xs)) = showVal (q_parse (.listS xs)) := by
  match xs with
  | [] => rfl
  | [a] => rfl
  | [a, b] => rfl
  | a :: b :: c :: rest => rfl

/-- C8: In the quoting path, a syntax list with a nonempty prefix whose
second-to-last element is the symbol `.` parses into nested pairs whose
final tail is the quoted final element (a dotted pair); any other list
right-folds into nested pairs terminated by the empty list; and
displaying the value produced by quoting a display-canonical literal
list reproduces the original textual list structure, including
dotted-pair notation (concretely, quoting `(1 2 . 3)` displays back as
`(1 2 . 3)`). -/
theorem C8_quote_dotted_fold_and_display_roundtrip :
    (∀ (a : Stx) (ys : List Stx) (z : Stx),
      q_parse (.listS (a :: ys ++ [.sym ".", z]))
        = (a :: ys).foldr (fun x t => .pairQ (q_parse x) t) (q_parse z)) ∧
    (∀ xs : List Stx,
      (∀ (ys : List Stx) (z : Stx), xs = ys ++ [.sym ".", z] → ys = []) →
      q_parse (.listS xs) = xs.foldr (fun x t => .pairQ (q_parse x) t) .nullQ) ∧
    (∀ xs : List Stx, dispCanon (.listS xs) = true →
      displayString (q_parse (.listS xs)) = stxShow (.listS xs)) ∧
    displayString (q_parse (.listS [.num 1, .num 2, .sym ".", .num 3])) = "(1 2 . 3)" := by
  refine ⟨q_parse_dotted, q_parse_plain, ?_, rfl⟩
  intro xs h
  rw [displayString_q_parse_listS, q_parse_show (.listS xs) h]

theorem C8_quote_dotted_fold_and_display_roundtrip_witness :
    q_parse (.listS [.num 1, .num 2, .sym ".", .num 3])
      = .pairQ (.numQ 1) (.pairQ (.numQ 2) (.numQ 3)) ∧
    q_parse (.listS [.num 1, .num 2, .num 3])
      = .pairQ (.numQ 1) (.pairQ (.numQ 2) (.pairQ (.numQ 3) .nullQ)) ∧
    displayString (q_parse (.listS [.sym "a", .strS "b", .sym ".", .ratS 1 2]))
      = "(a \"b\" . 1/2)" := by
  obtain ⟨h1, h2, h3, _⟩ := C8_quote_dotted_fold_and_display_roundtrip
  refine ⟨(h1 (.num 1) [.num 2] (.num 3)).trans rfl, ?_, ?_⟩
  · exact (h2 [.num 1, .num 2, .num 3] (by
      intro ys z he
      have hl : ys.length = 1 := by
        have := congrArg List.length he
        simpa using this
      match ys, hl with
      | [y], _ => simp at he)).trans rfl
  · exact (h3 [.sym "a", .strS "b", .sym ".", .ratS 1 2] rfl).trans rfl
